import Mathlib

/-! # NFSe scheduler (`backend/internal/services/nfse_scheduler.go`)

A shallow embedding of the scheduler core: the window calculator
(`calculateOptimalStartDate`), the skip heuristic (`shouldSkipFetch`), the
per-company orchestrator (`fetchCompanyDocuments`) with its page loop, and the
sweep over the companies (`fetchAllCompanies`).

Modelling conventions.
* A `time.Time` is the instant it denotes, as an integer number of nanoseconds
  since the Unix epoch.  `Before`, `After` and `Sub` of Go compare instants, so
  this loses nothing.  `AddDate(0, 0, k)` is calendar arithmetic in the
  location of the receiver: `Time.AddDateIn` models it for any location, and
  the window calculator is stated over it (`calculateOptimalStartDateIn`).
  `Time.AddDate` is the instance for a location with a fixed UTC offset (such
  as UTC), where a calendar day is 24 hours; the orchestrator is modelled in
  such a location, and none of its properties below depends on the length of
  a day.
* A `time.Duration` is an `int64` count of nanoseconds; `Time.Sub` saturates at
  the ends of that range, as in Go.
* The database and the NFSe service are collaborators whose code is outside the
  file: they are parameters.  Read queries are functions returning a result or
  an error; the service calls thread an abstract world state, so that the
  outcome of a call may depend on every call made before it.
* Logging and the sleep between pages have no effect on the results and are
  left out; the service calls made by a run are recorded as a list of events.
* Instants, configuration integers, the page number and the document counter
  are integers without wrap-around: they are taken in the range where Go's
  date arithmetic and `int` arithmetic do not overflow (a page number or a
  counter would need about 2^63 steps to leave it).
-/

namespace NFSeScheduler

/-! ## Go `time` -/

/-- An instant, in nanoseconds since the Unix epoch. -/
abbrev Time := Int

/-- A `time.Duration`, in nanoseconds. -/
abbrev Duration := Int

/-- Go `time.Second`. -/
def Second : Duration := 1000000000

/-- Go `time.Hour`. -/
def Hour : Duration := 3600 * Second

/-- The length of a day of 24 hours. -/
def Day : Duration := 24 * Hour

/-- Go `minDuration`, the least `int64`. -/
def minDuration : Duration := -9223372036854775808

/-- Go `maxDuration`, the greatest `int64`. -/
def maxDuration : Duration := 9223372036854775807

/-- Go `t.Before(u)`. -/
def Time.Before (t u : Time) : Bool := decide (t < u)

/-- Go `t.After(u)`. -/
def Time.After (t u : Time) : Bool := decide (u < t)

/-- Go `t.Sub(u)`: the difference `t - u`, saturated to the range of `Duration`. -/
def Time.Sub (t u : Time) : Duration :=
  if t - u < minDuration then minDuration
  else if maxDuration < t - u then maxDuration
  else t - u

/-- Go `t.AddDate(0, 0, days)` in a location with a fixed UTC offset. -/
def Time.AddDate (t : Time) (days : Int) : Time := t + days * Day

/-- Go `int(d.Hours() / 24)`: the number of whole days in `d`, truncated toward
zero.  The source computes it in `float64`; at the values it is compared with
(7 and 30) the rounded quotient lies on the same side as the exact one, since
one nanosecond is far more than the rounding error of a quotient near 31. -/
def wholeDays (d : Duration) : Int :=
  if 0 ≤ d then d / Day else -((-d) / Day)

/-- Days from 1970-01-01 to the civil date `y-m-d` (proleptic Gregorian). -/
def daysFromCivil (y m d : Int) : Int :=
  let y1 := if m ≤ 2 then y - 1 else y
  let era := y1 / 400
  let yoe := y1 - era * 400
  let mp := (m + 9) % 12
  let doy := (153 * mp + 2) / 5 + d - 1
  let doe := yoe * 365 + yoe / 4 - yoe / 100 + doy
  era * 146097 + doe - 719468

/-- Go `time.Date(y, m, d, 0, 0, 0, 0, time.UTC)`. -/
def Date (y m d : Int) : Time := daysFromCivil y m d * Day

/-! ## Data model -/

/-- Modelled from the spec: `models.Document` is declared outside the source
files given; the fields are the ones the scheduler reads. -/
structure Document where
  CompanyID : Int
  Number : String
  IssueDate : Time
  CreatedAt : Time
deriving DecidableEq, Repr

/-- Modelled from the spec: `models.CompanyCredential`, with the fields the
scheduler reads. -/
structure CompanyCredential where
  ID : Int
  CompanyID : Int
  CredType : String
deriving DecidableEq, Repr

/-- Modelled from the spec: `models.Company`, with the fields the scheduler
reads. -/
structure Company where
  ID : Int
  Name : String
  CNPJ : String
deriving DecidableEq, Repr

/-- The fields of `config.Config.NFSeScheduler` read by the scheduler. -/
structure SchedulerConfig where
  FetchDaysBack : Int
  MaxPagesPerRun : Int
  APIDelaySeconds : Int
deriving DecidableEq, Repr

/-- The read queries the scheduler sends to `database.DB`.  Each returns the
scanned value or the error of `Scan`/`Count`; a `Limit(1)` query that finds no
row is the error `sql.ErrNoRows`. -/
structure DB where
  /-- Active `prefeitura_token` credentials of a company. -/
  selectCredentials : Int → Except String (List CompanyCredential)
  /-- The `nfse` document of a company with the greatest `issue_date`. -/
  selectLatestByIssueDate : Int → Except String Document
  /-- The `nfse` document of a company with the greatest `created_at`. -/
  selectLatestByCreatedAt : Int → Except String Document
  /-- The number of `nfse` documents of a company with `issue_date` between the
  two bounds, both included. -/
  countIssuedBetween : Int → Time → Time → Except String Int

/-! ## Window calculator -/

/-- Source `calculateOptimalStartDate`. -/
def calculateOptimalStartDate (cfg : SchedulerConfig) (db : DB) (companyID : Int)
    (endDate : Time) : Time :=
  let defaultStartDate := Time.AddDate endDate (-cfg.FetchDaysBack)
  match db.selectLatestByIssueDate companyID with
  | .error _ => defaultStartDate
  | .ok latestDoc =>
    let optimizedStartDate := Time.AddDate latestDoc.IssueDate (-1)
    let optimizedStartDate :=
      if Time.Before optimizedStartDate defaultStartDate then defaultStartDate
      else optimizedStartDate
    let optimizedStartDate :=
      if Time.After optimizedStartDate endDate then endDate else optimizedStartDate
    optimizedStartDate

/-- The start date as the specification words it: the fallback
`endDate - fetchDaysBack` days when there is no latest document, and otherwise
`max (D - 1 day) fallback` clamped to at most `endDate`. -/
def computeStartDateSpec (fetchDaysBack : Int) (latestIssueDate : Option Time)
    (endDate : Time) : Time :=
  match latestIssueDate with
  | none => endDate - fetchDaysBack * Day
  | some D => min (max (D - 1 * Day) (endDate - fetchDaysBack * Day)) endDate

/-- The issue date of the latest document, when the lookup finds one. -/
def latestIssueDate (db : DB) (companyID : Int) : Option Time :=
  match db.selectLatestByIssueDate companyID with
  | .error _ => none
  | .ok doc => some doc.IssueDate

/-! ## Window calculator in a location

Go's `AddDate` works on the wall clock of the receiver's location: `endDate`
is `time.Now()`, in `time.Local`, and `latestDoc.IssueDate` carries the
location the database driver gave it.  The definitions of this section take
both locations as parameters; `Time.AddDate` and `calculateOptimalStartDate`
above are their instances for locations with a fixed UTC offset. -/

/-- A zone of a location as Go's `Location.lookup` reports it: the UTC offset
in seconds, and the Unix times in seconds from `start` (included) to `stop`
(excluded) during which the zone is in effect. -/
structure Zone where
  offset : Int
  start : Int
  stop : Int
deriving DecidableEq, Repr

/-- A `*time.Location`, by its `lookup`: the zone in effect at a Unix time
given in seconds. -/
structure Location where
  lookup : Int → Zone

/-- Go `t.AddDate(0, 0, days)` for a time `t` in location `loc`.  `AddDate`
reads the date and the clock of `t` on the wall clock of `loc`, adds `days` to
the day, and hands the result to `time.Date`, which normalises the day (so the
wall clock moves by `days` times 86400 seconds) and converts the wall clock
back to an instant: it looks up the zone at the wall-clock value taken as a
Unix time, keeps its offset when the resulting instant lies in that zone, and
otherwise takes the offset of the zone at that instant.  The nanoseconds
within the second are kept. -/
def Time.AddDateIn (loc : Location) (t : Time) (days : Int) : Time :=
  let sec := t / Second
  let nsec := t % Second
  let wall := sec + (loc.lookup sec).offset + days * 86400
  let zone := loc.lookup wall
  let offset :=
    if zone.offset ≠ 0 then
      let utc := wall - zone.offset
      if utc < zone.start ∨ utc ≥ zone.stop then (loc.lookup utc).offset else zone.offset
    else 0
  (wall - offset) * Second + nsec

/-- Source `calculateOptimalStartDate`, with `loc` the location of `endDate`
and `issueLoc` the location of `latestDoc.IssueDate`. -/
def calculateOptimalStartDateIn (loc issueLoc : Location) (cfg : SchedulerConfig) (db : DB)
    (companyID : Int) (endDate : Time) : Time :=
  let defaultStartDate := Time.AddDateIn loc endDate (-cfg.FetchDaysBack)
  match db.selectLatestByIssueDate companyID with
  | .error _ => defaultStartDate
  | .ok latestDoc =>
    let optimizedStartDate := Time.AddDateIn issueLoc latestDoc.IssueDate (-1)
    let optimizedStartDate :=
      if Time.Before optimizedStartDate defaultStartDate then defaultStartDate
      else optimizedStartDate
    let optimizedStartDate :=
      if Time.After optimizedStartDate endDate then endDate else optimizedStartDate
    optimizedStartDate

/-- The start date as the specification words it, the days being days of the
calendar in the location of the time they are taken from: the fallback
`endDate - fetchDaysBack` days when there is no latest document, and otherwise
`max (D - 1 day) fallback` clamped to at most `endDate`. -/
def computeStartDateSpecIn (loc issueLoc : Location) (fetchDaysBack : Int)
    (latestIssueDate : Option Time) (endDate : Time) : Time :=
  match latestIssueDate with
  | none => Time.AddDateIn loc endDate (-fetchDaysBack)
  | some D =>
    min (max (Time.AddDateIn issueLoc D (-1)) (Time.AddDateIn loc endDate (-fetchDaysBack)))
      endDate

/-- The location `time.UTC`. -/
def utc : Location := ⟨fun _ => ⟨0, -9223372036854775808, 9223372036854775807⟩⟩

/-- The location `America/New_York` from November 2023 to March 2025: Eastern
Daylight Time (UTC-4) from 2024-03-10T07:00Z to 2024-11-03T06:00Z, Eastern
Standard Time (UTC-5) before and after. -/
def newYork : Location :=
  ⟨fun sec =>
    if sec < 1710054000 then ⟨-18000, 1699164000, 1710054000⟩
    else if sec < 1730613600 then ⟨-14400, 1710054000, 1730613600⟩
    else ⟨-18000, 1730613600, 1741503600⟩⟩

/-! ## Skip evaluator -/

/-- Source `getLastFetchTime`: the `created_at` of the most recently created
document, or `nil` when the lookup fails. -/
def getLastFetchTime (db : DB) (companyID : Int) : Option Time :=
  match db.selectLatestByCreatedAt companyID with
  | .error _ => none
  | .ok latestDoc => some latestDoc.CreatedAt

/-- Go `time.Since(t)`, with `clock` the reading of `time.Now()` at the call. -/
def Since (clock t : Time) : Duration := Time.Sub clock t

/-- Source `shouldSkipFetch`; `clock` is the reading of the clock at the call
of `time.Since`. -/
def shouldSkipFetch (db : DB) (clock : Time) (companyID : Int)
    (startDate endDate : Time) : Bool :=
  let daysDiff := wholeDays (Time.Sub endDate startDate)
  if daysDiff < 7 then false
  else
    let recentThreshold := Time.AddDate endDate (-3)
    match db.countIssuedBetween companyID recentThreshold endDate with
    | .error _ => false
    | .ok recentDocCount =>
      if recentDocCount > 0 ∧ daysDiff > 30 then
        match getLastFetchTime db companyID with
        | none => false
        | some lastFetchTime =>
          if Since clock lastFetchTime < Hour then true else false
      else false

/-! ## Orchestrator -/

/-- The result of a successful `FetchNFSeDocuments` call, with the fields the
scheduler reads. -/
structure FetchResult where
  Success : Bool
  Documents : List Document
deriving DecidableEq, Repr

/-- The two calls the scheduler makes on `NFSeService`, over a world state `W`
that each call may read and change.  `StoreNFSeDocuments` returns its error,
or `none` for `nil`. -/
structure NFSeService (W : Type) where
  FetchNFSeDocuments :
    W → CompanyCredential → Time → Time → Int → Except String FetchResult × W
  StoreNFSeDocuments : W → Int → List Document → Option String × W

/-- A call made on the service during a run: a page fetch with its arguments,
or a store with its arguments and whether it returned without error. -/
inductive Event where
  | fetch (credential : CompanyCredential) (startDate endDate : Time) (page : Int)
  | store (companyID : Int) (documents : List Document) (ok : Bool)
deriving DecidableEq, Repr

/-- What the page loop leaves behind: the counter `totalDocuments`, the calls
made in order, and the world after the last call. -/
structure LoopResult (W : Type) where
  totalDocuments : Int
  events : List Event
  world : W

/-- The `for page := 1; page <= MaxPagesPerRun; page++` loop of
`fetchCompanyDocuments`, from the iteration at `page` on, with `w` the world
and `totalDocuments` the counter at that point.  The first argument bounds the
number of iterations; `MaxPagesPerRun + 1 - page` of them are always enough. -/
def pageLoop {W : Type} (cfg : SchedulerConfig) (svc : NFSeService W) (companyID : Int)
    (credential : CompanyCredential) (startDate endDate : Time) :
    Nat → Int → W → Int → LoopResult W
  | 0, _, w, totalDocuments => ⟨totalDocuments, [], w⟩
  | fuel + 1, page, w, totalDocuments =>
    if page ≤ cfg.MaxPagesPerRun then
      let fetched := Event.fetch credential startDate endDate page
      match svc.FetchNFSeDocuments w credential startDate endDate page with
      | (.error _, w1) => ⟨totalDocuments, [fetched], w1⟩
      | (.ok result, w1) =>
        if result.Success = false then ⟨totalDocuments, [fetched], w1⟩
        else if result.Documents.length = 0 then ⟨totalDocuments, [fetched], w1⟩
        else
          let stored := svc.StoreNFSeDocuments w1 companyID result.Documents
          let totalDocuments :=
            match stored.1 with
            | some _ => totalDocuments
            | none => totalDocuments + result.Documents.length
          let calls := [fetched, Event.store companyID result.Documents stored.1.isNone]
          if result.Documents.length < 100 then ⟨totalDocuments, calls, stored.2⟩
          else
            let rest := pageLoop cfg svc companyID credential startDate endDate
              fuel (page + 1) stored.2 totalDocuments
            ⟨rest.totalDocuments, calls ++ rest.events, rest.world⟩
    else ⟨totalDocuments, [], w⟩

/-- The outcome of one run of `fetchCompanyDocuments`: the boolean it returns,
the service calls it made, and the world it leaves. -/
structure RunResult (W : Type) where
  success : Bool
  events : List Event
  world : W

/-- Source `fetchCompanyDocuments`.  `now` is the reading of `time.Now()` that
becomes `endDate`, `clock` the later reading used inside `shouldSkipFetch`. -/
def fetchCompanyDocuments {W : Type} (cfg : SchedulerConfig) (db : DB)
    (svc : NFSeService W) (now clock : Time) (w : W) (company : Company) : RunResult W :=
  match db.selectCredentials company.ID with
  | .error _ => ⟨false, [], w⟩
  | .ok [] => ⟨false, [], w⟩
  | .ok (credential :: _) =>
    let endDate := now
    let startDate := calculateOptimalStartDate cfg db company.ID endDate
    if Time.After startDate endDate then ⟨true, [], w⟩
    else if shouldSkipFetch db clock company.ID startDate endDate then ⟨true, [], w⟩
    else
      let looped := pageLoop cfg svc company.ID credential startDate endDate
        cfg.MaxPagesPerRun.toNat 1 w 0
      ⟨decide (looped.totalDocuments > 0), looped.events, looped.world⟩

/-- The number of documents stored without error among the calls of a run. -/
def storedTotal : List Event → Int
  | [] => 0
  | Event.fetch _ _ _ _ :: rest => storedTotal rest
  | Event.store _ documents ok :: rest =>
    (if ok then (documents.length : Int) else 0) + storedTotal rest

/-- The page fetches among the calls of a run. -/
def fetchCalls (events : List Event) : List Event :=
  events.filter fun e => match e with
    | Event.fetch _ _ _ _ => true
    | Event.store _ _ _ => false

/-- The store calls among the calls of a run. -/
def storeCalls (events : List Event) : List Event :=
  events.filter fun e => match e with
    | Event.fetch _ _ _ _ => false
    | Event.store _ _ _ => true

/-! ## Concrete scenarios -/

/-- A company, for the scenarios below. -/
def exCompany : Company := ⟨1, "Acme", "00000000000191"⟩

/-- Its token credential. -/
def exCredential : CompanyCredential := ⟨7, 1, "prefeitura_token"⟩

/-- A document of the company with the given issue and creation times. -/
def exDocument (issueDate createdAt : Time) : Document := ⟨1, "1001", issueDate, createdAt⟩

/-- A database in which the company has one credential and no document. -/
def dbNoDocuments : DB :=
  ⟨fun _ => .ok [exCredential], fun _ => .error "sql: no rows in result set",
   fun _ => .error "sql: no rows in result set", fun _ _ _ => .ok 0⟩

/-- A database in which the company has one credential, a latest document
issued at `issueDate` and created at `createdAt`, and `recent` recent
documents. -/
def dbLatest (issueDate createdAt : Time) (recent : Int) : DB :=
  ⟨fun _ => .ok [exCredential], fun _ => .ok (exDocument issueDate createdAt),
   fun _ => .ok (exDocument issueDate createdAt), fun _ _ _ => .ok recent⟩

/-- A database in which the company has no credential. -/
def dbNoCredentials : DB :=
  ⟨fun _ => .ok [], fun _ => .error "sql: no rows in result set",
   fun _ => .error "sql: no rows in result set", fun _ _ _ => .ok 0⟩

/-- A database in which the company has one credential and a latest document,
and the count query fails. -/
def dbCountFails (issueDate createdAt : Time) : DB :=
  ⟨fun _ => .ok [exCredential], fun _ => .ok (exDocument issueDate createdAt),
   fun _ => .ok (exDocument issueDate createdAt), fun _ _ _ => .error "connection reset"⟩

/-- A service whose every page is fetched successfully and holds no document;
storing never fails. -/
def svcEmptyPages : NFSeService Unit :=
  ⟨fun w _ _ _ _ => (.ok ⟨true, []⟩, w), fun w _ _ => (none, w)⟩

/-- A service with three pages: pages 1 and 2 hold 100 documents each, page 3
holds 40 and later pages none.  The world counts the store calls made so far;
the second store call fails, the others succeed. -/
def svcThreePages : NFSeService Nat :=
  ⟨fun w _ _ _ page =>
    (.ok ⟨true,
      if page = 1 ∨ page = 2 then List.replicate 100 (exDocument 0 0)
      else if page = 3 then List.replicate 40 (exDocument 0 0)
      else []⟩, w),
   fun w _ _ => (if w = 1 then some "insert failed" else none, w + 1)⟩

/-! ## Scheduler runtime: one sweep -/

/-- What the process finds around it while it handles one company: the answers
of the database to the read queries, the reading of `time.Now()` that becomes
`endDate`, and the later reading used by `time.Since`. -/
structure Surroundings where
  db : DB
  now : Time
  clock : Time

/-- One call of `fetchCompanyDocuments` made by a sweep: the company passed,
the boolean returned and the service calls made. -/
structure Invocation where
  company : Company
  success : Bool
  events : List Event
deriving DecidableEq, Repr

/-- What the `for _, company := range companies` loop leaves behind: the calls
of `fetchCompanyDocuments` in order, the counter `successCount`, and the
world. -/
structure SweepResult (W : Type) where
  invocations : List Invocation
  successCount : Int
  world : W

/-- The `for _, company := range companies` loop of `fetchAllCompanies`, from
the company at position `index` on, with `w` the world and `successCount` the
counter at that point.  `around index w` is what the process finds around it
while it handles the company at that position in that world. -/
def sweepLoop {W : Type} (cfg : SchedulerConfig) (svc : NFSeService W)
    (around : Nat → W → Surroundings) :
    Nat → List Company → W → Int → SweepResult W
  | _, [], w, successCount => ⟨[], successCount, w⟩
  | index, company :: rest, w, successCount =>
    let run := fetchCompanyDocuments cfg (around index w).db svc (around index w).now
      (around index w).clock w company
    let successCount := if run.success then successCount + 1 else successCount
    let later := sweepLoop cfg svc around (index + 1) rest run.world successCount
    ⟨⟨company, run.success, run.events⟩ :: later.invocations, later.successCount, later.world⟩

/-- The fields `companies_total` and `companies_success` of the log entry that
closes a sweep. -/
structure CycleSummary where
  companiesTotal : Int
  companiesSuccess : Int
deriving DecidableEq, Repr

/-- The outcome of one `fetchAllCompanies`: the calls of `fetchCompanyDocuments`
it made, the summary it logged (none when the sweep was abandoned), and the
world it leaves. -/
structure CycleResult (W : Type) where
  invocations : List Invocation
  summary : Option CycleSummary
  world : W

/-- Source `fetchAllCompanies`; `listed` is the answer of the database to the
query for the active companies with `auto_fetch` enabled. -/
def fetchAllCompanies {W : Type} (cfg : SchedulerConfig) (svc : NFSeService W)
    (listed : Except String (List Company)) (around : Nat → W → Surroundings) (w : W) :
    CycleResult W :=
  match listed with
  | .error _ => ⟨[], none, w⟩
  | .ok companies =>
    let swept := sweepLoop cfg svc around 0 companies w 0
    ⟨swept.invocations, some ⟨companies.length, swept.successCount⟩, swept.world⟩

/-- The number of calls of a sweep that returned true. -/
def successes (invocations : List Invocation) : Int :=
  ((invocations.filter fun i => i.success).length : Int)

/-! ## A database holding a given set of documents -/

/-- The document that `ORDER BY key DESC LIMIT 1` selects from a list of rows:
one with the greatest key, none when there is no row. -/
def latestBy (key : Document → Time) : List Document → Option Document
  | [] => none
  | d :: rest =>
    match latestBy key rest with
    | none => some d
    | some m => if key m ≤ key d then some d else some m

/-- The number of documents of a list issued between two bounds, both
included: the `Count` of the rows with
`issue_date >= lo AND issue_date <= hi`. -/
def countIssued (docs : List Document) (lo hi : Time) : Int :=
  ((docs.filter fun d => decide (lo ≤ d.IssueDate ∧ d.IssueDate ≤ hi)).length : Int)

/-- The answers of a database whose `nfse` documents are exactly `docs`, by the
text of the queries in the source; every company has the credentials
`credentials`. -/
def dbOfDocuments (credentials : List CompanyCredential) (docs : List Document) : DB :=
  ⟨fun _ => .ok credentials,
   fun companyID =>
    match latestBy (fun d => d.IssueDate) (docs.filter fun d => d.CompanyID = companyID) with
    | none => .error "sql: no rows in result set"
    | some d => .ok d,
   fun companyID =>
    match latestBy (fun d => d.CreatedAt) (docs.filter fun d => d.CompanyID = companyID) with
    | none => .error "sql: no rows in result set"
    | some d => .ok d,
   fun companyID lo hi => .ok (countIssued (docs.filter fun d => d.CompanyID = companyID) lo hi)⟩

/-- A second company, without credentials in `dbTwoCompanies`. -/
def exCompanyB : Company := ⟨2, "Beta", "00000000000272"⟩

/-- A database in which company 1 has a credential and every other company has
none; there is no document. -/
def dbTwoCompanies : DB :=
  ⟨fun companyID => if companyID = 1 then .ok [exCredential] else .ok [],
   fun _ => .error "sql: no rows in result set",
   fun _ => .error "sql: no rows in result set", fun _ _ _ => .ok 0⟩

end NFSeScheduler

open NFSeScheduler

/-! ## Arithmetic of the time model -/

theorem Day_eq : Day = 86400000000000 := by decide

theorem Hour_eq : Hour = 3600000000000 := by decide

/-- A difference below a bound above the least `Duration` stays below it after
saturation. -/
theorem Sub_lt_of_lt (t u : Time) (b : Duration) (hb : minDuration < b) (h : t - u < b) :
    Time.Sub t u < b := by
  unfold Time.Sub
  simp only [minDuration, maxDuration] at *
  unfold Time Duration at *
  split_ifs <;> omega

/-- A difference of at least a bound that a `Duration` can hold stays at least
it after saturation. -/
theorem le_Sub_of_le (t u : Time) (b : Duration) (hb : b ≤ maxDuration) (h : b ≤ t - u) :
    b ≤ Time.Sub t u := by
  unfold Time.Sub
  simp only [minDuration, maxDuration] at *
  unfold Time Duration at *
  split_ifs <;> omega

/-- A duration has fewer than `n` whole days exactly when it is shorter than
`n` days, for `n > 0`. -/
theorem wholeDays_lt_iff (d : Duration) (n : Int) (hn : 0 < n) :
    wholeDays d < n ↔ d < n * Day := by
  unfold wholeDays
  simp only [Day_eq]
  unfold Duration at *
  split_ifs <;> omega

/-! ## Window calculator -/

/-- In a location with a fixed UTC offset, for a lookback `FetchDaysBack ≥ 0`
and whatever the latest-document lookup answers, the start returned by
`calculateOptimalStartDate` lies between `endDate` minus `FetchDaysBack` days
of 24 hours and `endDate`. -/
theorem calculateOptimalStartDate_bounds (cfg : SchedulerConfig) (db : DB)
    (companyID : Int) (endDate : Time) (h : 0 ≤ cfg.FetchDaysBack) :
    endDate - cfg.FetchDaysBack * Day ≤ calculateOptimalStartDate cfg db companyID endDate ∧
      calculateOptimalStartDate cfg db companyID endDate ≤ endDate := by
  unfold calculateOptimalStartDate
  cases db.selectLatestByIssueDate companyID with
  | error e =>
    simp only [Time.AddDate, Day_eq]
    unfold Time at *
    omega
  | ok latestDoc =>
    simp only [Time.AddDate, Time.Before, Time.After, Day_eq, decide_eq_true_eq]
    unfold Time at *
    split_ifs <;> omega

/-- In a location with a fixed UTC offset, `calculateOptimalStartDate` equals
`computeStartDateSpec`, in which a day is 24 hours: the fallback
`endDate - FetchDaysBack` days when the lookup yields no document, and
`min (max (D - 1 day) fallback) endDate` when the latest document is issued at
`D`. -/
theorem calculateOptimalStartDate_eq_spec :
    (∀ (cfg : SchedulerConfig) (db : DB) (companyID : Int) (endDate : Time),
      calculateOptimalStartDate cfg db companyID endDate =
        computeStartDateSpec cfg.FetchDaysBack (latestIssueDate db companyID) endDate) ∧
    (∀ (cfg : SchedulerConfig) (db : DB) (companyID : Int) (endDate : Time) (e : String),
      db.selectLatestByIssueDate companyID = .error e →
        calculateOptimalStartDate cfg db companyID endDate =
          endDate - cfg.FetchDaysBack * Day) ∧
    (∀ (cfg : SchedulerConfig) (db : DB) (companyID : Int) (endDate : Time) (doc : Document),
      db.selectLatestByIssueDate companyID = .ok doc →
        calculateOptimalStartDate cfg db companyID endDate =
          min (max (doc.IssueDate - 1 * Day) (endDate - cfg.FetchDaysBack * Day)) endDate) ∧
    calculateOptimalStartDate ⟨30, 5, 0⟩ (dbLatest (Date 2024 3 8) (Date 2024 3 9) 1) 1
      (Date 2024 3 10) = Date 2024 3 7 := by
  have key : ∀ (cfg : SchedulerConfig) (db : DB) (companyID : Int) (endDate : Time),
      calculateOptimalStartDate cfg db companyID endDate =
        computeStartDateSpec cfg.FetchDaysBack (latestIssueDate db companyID) endDate := by
    intro cfg db companyID endDate
    unfold calculateOptimalStartDate computeStartDateSpec latestIssueDate
    cases db.selectLatestByIssueDate companyID with
    | error e =>
      simp only [Time.AddDate]
      ring
    | ok latestDoc =>
      simp only [Time.AddDate, Time.Before, Time.After, Day_eq, decide_eq_true_eq]
      unfold Time Duration at *
      split_ifs <;> omega
  refine ⟨key, ?_, ?_, by decide⟩
  · intro cfg db companyID endDate e he
    rw [key]
    simp [computeStartDateSpec, latestIssueDate, he]
  · intro cfg db companyID endDate doc hdoc
    rw [key]
    simp [computeStartDateSpec, latestIssueDate, hdoc]

/-! ## Window calculator in a location -/

theorem Second_eq : Second = 1000000000 := rfl

/-- In a location whose UTC offset is fixed, `AddDate(0, 0, days)` moves the
instant by `days` times 24 hours. -/
theorem AddDateIn_of_fixed (loc : Location) (c : Int)
    (hfixed : ∀ sec, (loc.lookup sec).offset = c) (t : Time) (days : Int) :
    Time.AddDateIn loc t days = Time.AddDate t days := by
  unfold Time.AddDateIn Time.AddDate
  simp only [hfixed, Day_eq, Second_eq, ite_self]
  unfold Time at *
  split_ifs <;> omega

/-- In locations whose UTC offsets are fixed, the window calculator is
`calculateOptimalStartDate`. -/
theorem calculateOptimalStartDateIn_of_fixed (loc issueLoc : Location) (c c2 : Int)
    (hfixed : ∀ sec, (loc.lookup sec).offset = c)
    (hfixed2 : ∀ sec, (issueLoc.lookup sec).offset = c2)
    (cfg : SchedulerConfig) (db : DB) (companyID : Int) (endDate : Time) :
    calculateOptimalStartDateIn loc issueLoc cfg db companyID endDate =
      calculateOptimalStartDate cfg db companyID endDate := by
  unfold calculateOptimalStartDateIn calculateOptimalStartDate
  simp only [AddDateIn_of_fixed loc c hfixed, AddDateIn_of_fixed issueLoc c2 hfixed2]

/-- The claim C1 fails as stated: in `America/New_York`, with no document, a
lookback of 7 days and `endDate` 2024-11-04T12:00Z (07:00 EST, the day after
the end of daylight saving time), the fallback start is seven calendar days
earlier on the wall clock, 2024-10-28 07:00 EDT, which is 2024-10-28T11:00Z:
169 hours before `endDate`, earlier than `endDate` minus 7 days of 24 hours. -/
theorem calculateOptimalStartDateIn_below_seven_days :
    (0 : Int) ≤ (⟨7, 5, 0⟩ : SchedulerConfig).FetchDaysBack ∧
      calculateOptimalStartDateIn newYork utc ⟨7, 5, 0⟩ dbNoDocuments 1
        (Date 2024 11 4 + 12 * Hour) = Date 2024 10 28 + 11 * Hour ∧
      calculateOptimalStartDateIn newYork utc ⟨7, 5, 0⟩ dbNoDocuments 1
        (Date 2024 11 4 + 12 * Hour) <
        Date 2024 11 4 + 12 * Hour - (⟨7, 5, 0⟩ : SchedulerConfig).FetchDaysBack * Day := by
  decide

/-- C1, amended: when the location of `endDate` has a fixed UTC offset (so that
a calendar day is 24 hours), for a lookback `FetchDaysBack ≥ 0` and whatever
the latest-document lookup answers (an error, no row, or a document with any
issue date in any location), the start returned by `calculateOptimalStartDate`
lies between `endDate` minus `FetchDaysBack` days of 24 hours and `endDate`. -/
theorem calculateOptimalStartDateIn_bounds (loc issueLoc : Location) (c : Int)
    (cfg : SchedulerConfig) (db : DB) (companyID : Int) (endDate : Time)
    (hfixed : ∀ sec, (loc.lookup sec).offset = c) (h : 0 ≤ cfg.FetchDaysBack) :
    endDate - cfg.FetchDaysBack * Day ≤
        calculateOptimalStartDateIn loc issueLoc cfg db companyID endDate ∧
      calculateOptimalStartDateIn loc issueLoc cfg db companyID endDate ≤ endDate := by
  unfold calculateOptimalStartDateIn
  rw [AddDateIn_of_fixed loc c hfixed]
  cases db.selectLatestByIssueDate companyID with
  | error e =>
    simp only [Time.AddDate, Day_eq]
    unfold Time at *
    omega
  | ok latestDoc =>
    simp only [Time.AddDate, Time.Before, Time.After, Day_eq, decide_eq_true_eq]
    generalize Time.AddDateIn issueLoc latestDoc.IssueDate (-1) = candidate
    unfold Time at *
    split_ifs <;> omega

/-- C1, amended, with `endDate` in UTC, a lookback of 30 days and a latest
document issued two days before the end, its issue date in
`America/New_York`. -/
theorem calculateOptimalStartDateIn_bounds_witness :
    Date 2024 3 10 - 30 * Day ≤
        calculateOptimalStartDateIn utc newYork ⟨30, 5, 0⟩
          (dbLatest (Date 2024 3 8) (Date 2024 3 9) 1) 1 (Date 2024 3 10) ∧
      calculateOptimalStartDateIn utc newYork ⟨30, 5, 0⟩
          (dbLatest (Date 2024 3 8) (Date 2024 3 9) 1) 1 (Date 2024 3 10) ≤ Date 2024 3 10 :=
  calculateOptimalStartDateIn_bounds utc newYork 0 ⟨30, 5, 0⟩
    (dbLatest (Date 2024 3 8) (Date 2024 3 9) 1) 1 (Date 2024 3 10) (fun _ => rfl) (by decide)

/-- C2: in every location, `calculateOptimalStartDate` equals the reference
definition `computeStartDateSpecIn`, the days being days of the calendar: when
the lookup yields no document the result is exactly `endDate` minus
`FetchDaysBack` days, and when the latest document is issued at `D` it is
`min (max (D - 1 day) (endDate - FetchDaysBack days)) endDate`.  Where the UTC
offsets are fixed these are days of 24 hours (`computeStartDateSpec`).  With
`D = 2024-03-08`, `endDate = 2024-03-10` and a lookback of 30 days the start is
`2024-03-07`, in UTC and on the wall clock of `America/New_York`. -/
theorem calculateOptimalStartDateIn_eq_spec :
    (∀ (loc issueLoc : Location) (cfg : SchedulerConfig) (db : DB) (companyID : Int)
        (endDate : Time),
      calculateOptimalStartDateIn loc issueLoc cfg db companyID endDate =
        computeStartDateSpecIn loc issueLoc cfg.FetchDaysBack (latestIssueDate db companyID)
          endDate) ∧
    (∀ (loc issueLoc : Location) (cfg : SchedulerConfig) (db : DB) (companyID : Int)
        (endDate : Time) (e : String),
      db.selectLatestByIssueDate companyID = .error e →
        calculateOptimalStartDateIn loc issueLoc cfg db companyID endDate =
          Time.AddDateIn loc endDate (-cfg.FetchDaysBack)) ∧
    (∀ (loc issueLoc : Location) (cfg : SchedulerConfig) (db : DB) (companyID : Int)
        (endDate : Time) (doc : Document),
      db.selectLatestByIssueDate companyID = .ok doc →
        calculateOptimalStartDateIn loc issueLoc cfg db companyID endDate =
          min (max (Time.AddDateIn issueLoc doc.IssueDate (-1))
            (Time.AddDateIn loc endDate (-cfg.FetchDaysBack))) endDate) ∧
    (∀ (loc issueLoc : Location) (c c2 : Int) (cfg : SchedulerConfig) (db : DB)
        (companyID : Int) (endDate : Time),
      (∀ sec, (loc.lookup sec).offset = c) →
      (∀ sec, (issueLoc.lookup sec).offset = c2) →
        calculateOptimalStartDateIn loc issueLoc cfg db companyID endDate =
          computeStartDateSpec cfg.FetchDaysBack (latestIssueDate db companyID) endDate) ∧
    calculateOptimalStartDateIn utc utc ⟨30, 5, 0⟩ (dbLatest (Date 2024 3 8) (Date 2024 3 9) 1) 1
      (Date 2024 3 10) = Date 2024 3 7 ∧
    calculateOptimalStartDateIn newYork newYork ⟨30, 5, 0⟩
      (dbLatest (Date 2024 3 8 + 5 * Hour) (Date 2024 3 9) 1) 1 (Date 2024 3 10 + 5 * Hour)
      = Date 2024 3 7 + 5 * Hour := by
  have key : ∀ (loc issueLoc : Location) (cfg : SchedulerConfig) (db : DB) (companyID : Int)
      (endDate : Time),
      calculateOptimalStartDateIn loc issueLoc cfg db companyID endDate =
        computeStartDateSpecIn loc issueLoc cfg.FetchDaysBack (latestIssueDate db companyID)
          endDate := by
    intro loc issueLoc cfg db companyID endDate
    unfold calculateOptimalStartDateIn computeStartDateSpecIn latestIssueDate
    cases db.selectLatestByIssueDate companyID with
    | error e => rfl
    | ok latestDoc =>
      simp only [Time.Before, Time.After, decide_eq_true_eq]
      generalize Time.AddDateIn issueLoc latestDoc.IssueDate (-1) = candidate
      generalize Time.AddDateIn loc endDate (-cfg.FetchDaysBack) = fallback
      unfold Time at *
      split_ifs <;> omega
  refine ⟨key, ?_, ?_, ?_, by decide, by decide⟩
  · intro loc issueLoc cfg db companyID endDate e he
    rw [key]
    simp [computeStartDateSpecIn, latestIssueDate, he]
  · intro loc issueLoc cfg db companyID endDate doc hdoc
    rw [key]
    simp [computeStartDateSpecIn, latestIssueDate, hdoc]
  · intro loc issueLoc c c2 cfg db companyID endDate hfixed hfixed2
    rw [calculateOptimalStartDateIn_of_fixed loc issueLoc c c2 hfixed hfixed2]
    exact calculateOptimalStartDate_eq_spec.1 cfg db companyID endDate

/-- C2 at three inputs: a company without documents seen from
`America/New_York` across the end of daylight saving time (seven calendar
days are 169 hours there), a latest document issued on 2024-03-08 with a
lookback of 30 days in `America/New_York`, and the same in UTC, where the days
are days of 24 hours. -/
theorem calculateOptimalStartDateIn_eq_spec_witness :
    calculateOptimalStartDateIn newYork utc ⟨7, 5, 0⟩ dbNoDocuments 1
        (Date 2024 11 4 + 12 * Hour) =
        Time.AddDateIn newYork (Date 2024 11 4 + 12 * Hour) (-7) ∧
      calculateOptimalStartDateIn newYork newYork ⟨30, 5, 0⟩
          (dbLatest (Date 2024 3 8 + 5 * Hour) (Date 2024 3 9) 1) 1 (Date 2024 3 10 + 5 * Hour) =
        min (max (Time.AddDateIn newYork (Date 2024 3 8 + 5 * Hour) (-1))
          (Time.AddDateIn newYork (Date 2024 3 10 + 5 * Hour) (-30)))
          (Date 2024 3 10 + 5 * Hour) ∧
      calculateOptimalStartDateIn utc utc ⟨30, 5, 0⟩ (dbLatest (Date 2024 3 8) (Date 2024 3 9) 1)
          1 (Date 2024 3 10) =
        computeStartDateSpec 30
          (latestIssueDate (dbLatest (Date 2024 3 8) (Date 2024 3 9) 1) 1) (Date 2024 3 10) :=
  ⟨calculateOptimalStartDateIn_eq_spec.2.1 newYork utc ⟨7, 5, 0⟩ dbNoDocuments 1
      (Date 2024 11 4 + 12 * Hour) "sql: no rows in result set" rfl,
   calculateOptimalStartDateIn_eq_spec.2.2.1 newYork newYork ⟨30, 5, 0⟩
      (dbLatest (Date 2024 3 8 + 5 * Hour) (Date 2024 3 9) 1) 1 (Date 2024 3 10 + 5 * Hour)
      (exDocument (Date 2024 3 8 + 5 * Hour) (Date 2024 3 9)) rfl,
   calculateOptimalStartDateIn_eq_spec.2.2.2.1 utc utc 0 0 ⟨30, 5, 0⟩
      (dbLatest (Date 2024 3 8) (Date 2024 3 9) 1) 1 (Date 2024 3 10)
      (fun _ => rfl) (fun _ => rfl)⟩

/-! ## Skip evaluator -/

/-- The skip heuristic is off below seven whole days. -/
theorem shouldSkipFetch_of_daysDiff_lt (db : DB) (clock : Time) (companyID : Int)
    (startDate endDate : Time) (h : wholeDays (Time.Sub endDate startDate) < 7) :
    shouldSkipFetch db clock companyID startDate endDate = false := by
  unfold shouldSkipFetch
  simp [h]

/-- C6: when `endDate - startDate` is less than 7 days (zero-length and
inverted windows included), `shouldSkipFetch` returns false whatever the
database answers and whatever the clock reads; truncating the duration to
whole days does not change this. -/
theorem shouldSkipFetch_false_of_short_window (db : DB) (clock : Time) (companyID : Int)
    (startDate endDate : Time) (h : endDate - startDate < 7 * Day) :
    shouldSkipFetch db clock companyID startDate endDate = false := by
  apply shouldSkipFetch_of_daysDiff_lt
  rw [wholeDays_lt_iff _ 7 (by decide)]
  exact Sub_lt_of_lt _ _ _ (by decide) h

/-- C6 at a window of six days and 23 hours over a database with recent
documents and a fetch one minute before. -/
theorem shouldSkipFetch_false_of_short_window_witness :
    Date 2024 3 10 - (Date 2024 3 3 + Hour) < 7 * Day ∧
      shouldSkipFetch (dbLatest (Date 2024 3 9) (Date 2024 3 10 - 60 * Second) 5)
        (Date 2024 3 10) 1 (Date 2024 3 3 + Hour) (Date 2024 3 10) = false :=
  ⟨by decide,
   shouldSkipFetch_false_of_short_window
     (dbLatest (Date 2024 3 9) (Date 2024 3 10 - 60 * Second) 5) (Date 2024 3 10) 1
     (Date 2024 3 3 + Hour) (Date 2024 3 10) (by decide)⟩

/-- C7: `shouldSkipFetch` returns false unless the count query succeeds with a
positive count: it returns false when the query errors and when the count is
zero. -/
theorem shouldSkipFetch_false_of_no_recent (db : DB) (clock : Time) (companyID : Int)
    (startDate endDate : Time)
    (h : ∀ n : Int, db.countIssuedBetween companyID (Time.AddDate endDate (-3)) endDate = .ok n →
      n ≤ 0) :
    shouldSkipFetch db clock companyID startDate endDate = false := by
  unfold shouldSkipFetch
  cases hc : db.countIssuedBetween companyID (Time.AddDate endDate (-3)) endDate with
  | error e => simp [hc]
  | ok n =>
    have hn : n ≤ 0 := h n hc
    have hn2 : ¬ (0 < n) := not_lt.mpr hn
    simp [hc, hn2]

/-- C7 at a window of 40 days whose count query errors, with a fetch one
minute before. -/
theorem shouldSkipFetch_false_of_no_recent_witness :
    (∀ n : Int,
      (dbCountFails (Date 2024 3 9) (Date 2024 3 10 - 60 * Second)).countIssuedBetween 1
        (Time.AddDate (Date 2024 3 10) (-3)) (Date 2024 3 10) = .ok n → n ≤ 0) ∧
      shouldSkipFetch (dbCountFails (Date 2024 3 9) (Date 2024 3 10 - 60 * Second))
        (Date 2024 3 10) 1 (Date 2024 1 30) (Date 2024 3 10) = false :=
  ⟨fun _ hn => by simp [dbCountFails] at hn,
   shouldSkipFetch_false_of_no_recent
     (dbCountFails (Date 2024 3 9) (Date 2024 3 10 - 60 * Second)) (Date 2024 3 10) 1
     (Date 2024 1 30) (Date 2024 3 10) (fun _ hn => by simp [dbCountFails] at hn)⟩

/-- The claim C5 fails as stated: with 5 recent documents, a window of 30 days
and 12 hours (more than 30 days) and a latest document created ten minutes
before the clock reading, `shouldSkipFetch` returns false, because the window
holds only 30 whole days. -/
theorem shouldSkipFetch_not_skipped_at_30_days_12_hours :
    (dbLatest (Date 2024 3 30) (Date 2024 3 31 + 12 * Hour - 600 * Second) 5).countIssuedBetween 1
        (Time.AddDate (Date 2024 3 31 + 12 * Hour) (-3)) (Date 2024 3 31 + 12 * Hour) = .ok 5 ∧
      30 * Day < (Date 2024 3 31 + 12 * Hour) - Date 2024 3 1 ∧
      getLastFetchTime (dbLatest (Date 2024 3 30) (Date 2024 3 31 + 12 * Hour - 600 * Second) 5) 1
        = some (Date 2024 3 31 + 12 * Hour - 600 * Second) ∧
      (Date 2024 3 31 + 12 * Hour) - Hour < Date 2024 3 31 + 12 * Hour - 600 * Second ∧
      Date 2024 3 31 + 12 * Hour - 600 * Second ≤ Date 2024 3 31 + 12 * Hour ∧
      shouldSkipFetch (dbLatest (Date 2024 3 30) (Date 2024 3 31 + 12 * Hour - 600 * Second) 5)
        (Date 2024 3 31 + 12 * Hour) 1 (Date 2024 3 1) (Date 2024 3 31 + 12 * Hour) = false :=
  ⟨rfl, by decide, rfl, by decide, by decide, by decide⟩

/-- C5, amended: when the count of recent documents (issue date in
`[endDate - 3 days, endDate]`) is positive, `endDate - startDate` is at least
31 days (so that it holds more than 30 whole days), and the most recent
`created_at` of the company is less than one hour before the clock reading,
`shouldSkipFetch` returns true. -/
theorem shouldSkipFetch_true_of_recent (db : DB) (clock : Time) (companyID : Int)
    (startDate endDate : Time) (n : Int) (doc : Document)
    (hcount : db.countIssuedBetween companyID (Time.AddDate endDate (-3)) endDate = .ok n)
    (hn : 0 < n) (hwindow : 31 * Day ≤ endDate - startDate)
    (hlast : db.selectLatestByCreatedAt companyID = .ok doc)
    (hrecent : clock - doc.CreatedAt < Hour) :
    shouldSkipFetch db clock companyID startDate endDate = true := by
  have hsub : 31 * Day ≤ Time.Sub endDate startDate := le_Sub_of_le _ _ _ (by decide) hwindow
  have h7 : ¬ wholeDays (Time.Sub endDate startDate) < 7 := by
    rw [wholeDays_lt_iff _ 7 (by decide)]
    simp only [Day_eq] at *
    unfold Time Duration at *
    omega
  have h30 : 30 < wholeDays (Time.Sub endDate startDate) := by
    have := (wholeDays_lt_iff (Time.Sub endDate startDate) 31 (by decide)).not.mpr (not_lt.mpr hsub)
    unfold Time Duration at *
    omega
  have hsince : Since clock doc.CreatedAt < Hour := Sub_lt_of_lt _ _ _ (by decide) hrecent
  unfold shouldSkipFetch getLastFetchTime
  simp [h7, hcount, hn, h30, hlast, hsince]

/-- C5, amended, at a window of 31 days with 5 recent documents and a latest
document created ten minutes before the clock reading. -/
theorem shouldSkipFetch_true_of_recent_witness :
    shouldSkipFetch (dbLatest (Date 2024 3 30) (Date 2024 4 1 - 600 * Second) 5)
      (Date 2024 4 1) 1 (Date 2024 3 1) (Date 2024 4 1) = true :=
  shouldSkipFetch_true_of_recent (dbLatest (Date 2024 3 30) (Date 2024 4 1 - 600 * Second) 5)
    (Date 2024 4 1) 1 (Date 2024 3 1) (Date 2024 4 1) 5
    (exDocument (Date 2024 3 30) (Date 2024 4 1 - 600 * Second)) rfl (by decide) (by decide)
    rfl (by decide)

/-! ## Page loop -/

/-- The counter after the loop is the counter before it plus the documents of
the pages stored without error: a page whose store fails adds nothing. -/
theorem pageLoop_totalDocuments {W : Type} (cfg : SchedulerConfig) (svc : NFSeService W)
    (companyID : Int) (credential : CompanyCredential) (startDate endDate : Time)
    (fuel : Nat) (page : Int) (w : W) (total : Int) :
    (pageLoop cfg svc companyID credential startDate endDate fuel page w total).totalDocuments
      = total + storedTotal
        (pageLoop cfg svc companyID credential startDate endDate fuel page w total).events := by
  induction fuel generalizing page w total with
  | zero => simp [pageLoop, storedTotal]
  | succ fuel ih =>
    unfold pageLoop
    by_cases hpage : page ≤ cfg.MaxPagesPerRun
    · simp only [hpage, if_true]
      rcases hf : svc.FetchNFSeDocuments w credential startDate endDate page with ⟨r, w1⟩
      cases r with
      | error e => simp [storedTotal]
      | ok result =>
        simp only
        by_cases hs : result.Success = false
        · simp [hs, storedTotal]
        · by_cases hz : result.Documents.length = 0
          · simp [hs, hz, storedTotal]
          · simp only [hs, hz, if_false]
            rcases hst : svc.StoreNFSeDocuments w1 companyID result.Documents with ⟨err, w2⟩
            by_cases hlt : result.Documents.length < 100
            · cases err <;> simp [hlt, storedTotal]
            · cases err with
              | none =>
                simp [hlt, storedTotal, ih]
                ring
              | some e => simp [hlt, storedTotal, ih]
    · simp [hpage, storedTotal]

/-- One iteration of the loop at a page that is fetched successfully with at
least one document: the page is handed to the store, the counter grows by the
page when the store returns no error, and the loop goes on to the next page
exactly when the page holds at least 100 documents. -/
theorem pageLoop_step {W : Type} (cfg : SchedulerConfig) (svc : NFSeService W)
    (companyID : Int) (credential : CompanyCredential) (startDate endDate : Time)
    (fuel : Nat) (page : Int) (w : W) (total : Int) (result : FetchResult) (w1 : W)
    (hpage : page ≤ cfg.MaxPagesPerRun)
    (hfetch : svc.FetchNFSeDocuments w credential startDate endDate page = (.ok result, w1))
    (hsucc : result.Success = true) (hpos : 0 < result.Documents.length) :
    pageLoop cfg svc companyID credential startDate endDate (fuel + 1) page w total =
      if result.Documents.length < 100 then
        ⟨match (svc.StoreNFSeDocuments w1 companyID result.Documents).1 with
          | some _ => total
          | none => total + result.Documents.length,
         [Event.fetch credential startDate endDate page,
          Event.store companyID result.Documents
            (svc.StoreNFSeDocuments w1 companyID result.Documents).1.isNone],
         (svc.StoreNFSeDocuments w1 companyID result.Documents).2⟩
      else
        ⟨(pageLoop cfg svc companyID credential startDate endDate fuel (page + 1)
            (svc.StoreNFSeDocuments w1 companyID result.Documents).2
            (match (svc.StoreNFSeDocuments w1 companyID result.Documents).1 with
              | some _ => total
              | none => total + result.Documents.length)).totalDocuments,
         Event.fetch credential startDate endDate page ::
          Event.store companyID result.Documents
            (svc.StoreNFSeDocuments w1 companyID result.Documents).1.isNone ::
          (pageLoop cfg svc companyID credential startDate endDate fuel (page + 1)
            (svc.StoreNFSeDocuments w1 companyID result.Documents).2
            (match (svc.StoreNFSeDocuments w1 companyID result.Documents).1 with
              | some _ => total
              | none => total + result.Documents.length)).events,
         (pageLoop cfg svc companyID credential startDate endDate fuel (page + 1)
            (svc.StoreNFSeDocuments w1 companyID result.Documents).2
            (match (svc.StoreNFSeDocuments w1 companyID result.Documents).1 with
              | some _ => total
              | none => total + result.Documents.length)).world⟩ := by
  have hz : ¬ result.Documents.length = 0 := by omega
  conv_lhs => unfold pageLoop
  simp only [hpage, if_true, hfetch, hsucc, hz, if_false, Bool.true_eq_false]
  split_ifs <;> simp

/-- The bound on the number of iterations does not matter once it covers the
pages left up to `MaxPagesPerRun`: the loop always ends by its own condition
or by a `break`. -/
theorem pageLoop_fuel {W : Type} (cfg : SchedulerConfig) (svc : NFSeService W)
    (companyID : Int) (credential : CompanyCredential) (startDate endDate : Time)
    (fuel fuel2 : Nat) (page : Int) (w : W) (total : Int)
    (h : (cfg.MaxPagesPerRun + 1 - page).toNat ≤ fuel)
    (h2 : (cfg.MaxPagesPerRun + 1 - page).toNat ≤ fuel2) :
    pageLoop cfg svc companyID credential startDate endDate fuel page w total =
      pageLoop cfg svc companyID credential startDate endDate fuel2 page w total := by
  induction fuel generalizing fuel2 page w total with
  | zero =>
    have hpage : ¬ page ≤ cfg.MaxPagesPerRun := by omega
    cases fuel2 with
    | zero => rfl
    | succ n => simp [pageLoop, hpage]
  | succ fuel ih =>
    cases fuel2 with
    | zero =>
      have hpage : ¬ page ≤ cfg.MaxPagesPerRun := by omega
      simp [pageLoop, hpage]
    | succ n =>
      unfold pageLoop
      by_cases hpage : page ≤ cfg.MaxPagesPerRun
      · have e : pageLoop cfg svc companyID credential startDate endDate fuel (page + 1) =
            pageLoop cfg svc companyID credential startDate endDate n (page + 1) := by
          funext w3 t3
          exact ih n (page + 1) w3 t3 (by omega) (by omega)
        simp only [hpage, if_true, e]
      · simp [hpage]

/-- An iteration within the page ceiling starts with a fetch of its page, with
the credential and the window of the run. -/
theorem pageLoop_events_head {W : Type} (cfg : SchedulerConfig) (svc : NFSeService W)
    (companyID : Int) (credential : CompanyCredential) (startDate endDate : Time)
    (fuel : Nat) (page : Int) (w : W) (total : Int)
    (hpage : page ≤ cfg.MaxPagesPerRun) (hfuel : 0 < fuel) :
    ∃ tail, (pageLoop cfg svc companyID credential startDate endDate fuel page w total).events
      = Event.fetch credential startDate endDate page :: tail := by
  obtain ⟨n, rfl⟩ : ∃ n, fuel = n + 1 := ⟨fuel - 1, by omega⟩
  unfold pageLoop
  simp only [hpage, if_true]
  rcases hf : svc.FetchNFSeDocuments w credential startDate endDate page with ⟨r, w1⟩
  cases r with
  | error e => exact ⟨[], rfl⟩
  | ok result =>
    simp only
    split_ifs
    · exact ⟨[], rfl⟩
    · exact ⟨[], rfl⟩
    · exact ⟨_, rfl⟩
    · exact ⟨_, rfl⟩

/-! ## Orchestrator -/

/-- A run that finds a credential and is not short-circuited is the page loop
from page 1 with an empty counter, over `MaxPagesPerRun` iterations at most;
it succeeds exactly when the counter ends positive. -/
theorem fetchCompanyDocuments_loop {W : Type} (cfg : SchedulerConfig) (db : DB)
    (svc : NFSeService W) (now clock : Time) (w : W) (company : Company)
    (credential : CompanyCredential) (others : List CompanyCredential)
    (hcred : db.selectCredentials company.ID = .ok (credential :: others))
    (hafter : Time.After (calculateOptimalStartDate cfg db company.ID now) now = false)
    (hskip : shouldSkipFetch db clock company.ID
      (calculateOptimalStartDate cfg db company.ID now) now = false) :
    fetchCompanyDocuments cfg db svc now clock w company =
      ⟨decide ((pageLoop cfg svc company.ID credential
          (calculateOptimalStartDate cfg db company.ID now) now
          cfg.MaxPagesPerRun.toNat 1 w 0).totalDocuments > 0),
       (pageLoop cfg svc company.ID credential
          (calculateOptimalStartDate cfg db company.ID now) now
          cfg.MaxPagesPerRun.toNat 1 w 0).events,
       (pageLoop cfg svc company.ID credential
          (calculateOptimalStartDate cfg db company.ID now) now
          cfg.MaxPagesPerRun.toNat 1 w 0).world⟩ := by
  unfold fetchCompanyDocuments
  simp [hcred, hafter, hskip]

/-- The stored total of a run is never negative. -/
theorem storedTotal_nonneg (events : List Event) : 0 ≤ storedTotal events := by
  induction events with
  | nil => simp [storedTotal]
  | cons e rest ih =>
    cases e with
    | fetch c s e p => simpa [storedTotal] using ih
    | store c docs ok =>
      cases ok <;> simp [storedTotal] <;> omega

/-- The skip heuristic is off on a window of zero length. -/
theorem shouldSkipFetch_same (db : DB) (clock : Time) (companyID : Int) (t : Time) :
    shouldSkipFetch db clock companyID t t = false := by
  apply shouldSkipFetch_of_daysDiff_lt
  rw [wholeDays_lt_iff _ 7 (by decide)]
  apply Sub_lt_of_lt _ _ _ (by decide)
  simp only [Day_eq]
  unfold Time at *
  omega

/-- C10: when the credentials query returns no active token credential,
`fetchCompanyDocuments` returns false and makes no call on the service: no
store insert and no page fetch. -/
theorem fetchCompanyDocuments_no_credentials {W : Type} (cfg : SchedulerConfig) (db : DB)
    (svc : NFSeService W) (now clock : Time) (w : W) (company : Company)
    (h : db.selectCredentials company.ID = .ok []) :
    (fetchCompanyDocuments cfg db svc now clock w company).success = false ∧
      (fetchCompanyDocuments cfg db svc now clock w company).events = [] := by
  unfold fetchCompanyDocuments
  simp [h]

/-- C10 at a company without credentials, against a service that would return
three pages. -/
theorem fetchCompanyDocuments_no_credentials_witness :
    dbNoCredentials.selectCredentials exCompany.ID = .ok [] ∧
      (fetchCompanyDocuments ⟨7, 5, 0⟩ dbNoCredentials svcThreePages (Date 2024 3 10)
        (Date 2024 3 10) 0 exCompany).success = false ∧
      (fetchCompanyDocuments ⟨7, 5, 0⟩ dbNoCredentials svcThreePages (Date 2024 3 10)
        (Date 2024 3 10) 0 exCompany).events = [] :=
  ⟨rfl, fetchCompanyDocuments_no_credentials ⟨7, 5, 0⟩ dbNoCredentials svcThreePages
    (Date 2024 3 10) (Date 2024 3 10) 0 exCompany rfl⟩

/-- The claim C3 fails as stated: the company has a credential and its latest
document is issued two days after `now`, so the computed start is clamped to
`now` and the window has `start == end`; the run still asks the service for
page 1 of that window, and as the page is empty it returns false. -/
theorem fetchCompanyDocuments_fetches_on_empty_window :
    (dbLatest (Date 2024 3 12) (Date 2024 3 9) 1).selectCredentials exCompany.ID
        = .ok [exCredential] ∧
      calculateOptimalStartDate ⟨30, 5, 0⟩ (dbLatest (Date 2024 3 12) (Date 2024 3 9) 1)
        exCompany.ID (Date 2024 3 10) = Date 2024 3 10 ∧
      (fetchCompanyDocuments ⟨30, 5, 0⟩ (dbLatest (Date 2024 3 12) (Date 2024 3 9) 1)
        svcEmptyPages (Date 2024 3 10) (Date 2024 3 10) () exCompany).success = false ∧
      (fetchCompanyDocuments ⟨30, 5, 0⟩ (dbLatest (Date 2024 3 12) (Date 2024 3 9) 1)
        svcEmptyPages (Date 2024 3 10) (Date 2024 3 10) () exCompany).events =
        [Event.fetch exCredential (Date 2024 3 10) (Date 2024 3 10) 1] :=
  ⟨rfl, by decide, by decide, by decide⟩

/-- C3, amended: for a company with at least one active token credential, a
computed start strictly after `now` makes `fetchCompanyDocuments` return true
without any call on the service (no page fetch, nothing stored).  A window with
`start == end` is not short-circuited: the run enters the page loop with it,
asks for page 1 whenever `MaxPagesPerRun ≥ 1`, and returns true exactly when it
stores at least one document. -/
theorem fetchCompanyDocuments_window_edge {W : Type} (cfg : SchedulerConfig) (db : DB)
    (svc : NFSeService W) (now clock : Time) (w : W) (company : Company)
    (credential : CompanyCredential) (others : List CompanyCredential)
    (hcred : db.selectCredentials company.ID = .ok (credential :: others)) :
    (now < calculateOptimalStartDate cfg db company.ID now →
      (fetchCompanyDocuments cfg db svc now clock w company).success = true ∧
        (fetchCompanyDocuments cfg db svc now clock w company).events = []) ∧
    (calculateOptimalStartDate cfg db company.ID now = now →
      (fetchCompanyDocuments cfg db svc now clock w company).success =
          decide (0 < storedTotal (fetchCompanyDocuments cfg db svc now clock w company).events) ∧
        (1 ≤ cfg.MaxPagesPerRun →
          ∃ tail, (fetchCompanyDocuments cfg db svc now clock w company).events =
            Event.fetch credential now now 1 :: tail)) := by
  constructor
  · intro hlt
    unfold fetchCompanyDocuments
    simp [hcred, Time.After, hlt]
  · intro heq
    have hafter : Time.After (calculateOptimalStartDate cfg db company.ID now) now = false := by
      simp [Time.After, heq]
    have hskip : shouldSkipFetch db clock company.ID
        (calculateOptimalStartDate cfg db company.ID now) now = false := by
      rw [heq]
      exact shouldSkipFetch_same db clock company.ID now
    rw [fetchCompanyDocuments_loop cfg db svc now clock w company credential others hcred
      hafter hskip]
    simp only [heq]
    constructor
    · rw [pageLoop_totalDocuments]
      simp
    · intro hmax
      exact pageLoop_events_head cfg svc company.ID credential now now _ 1 w 0 hmax (by omega)

/-- C3, amended, at two inputs: a latest document issued two days after `now`
(start clamped to `now`, page 1 requested), and a lookback of minus one day with
no document (start one day after `now`, no call). -/
theorem fetchCompanyDocuments_window_edge_witness :
    ((fetchCompanyDocuments ⟨30, 5, 0⟩ (dbLatest (Date 2024 3 12) (Date 2024 3 9) 1)
        svcEmptyPages (Date 2024 3 10) (Date 2024 3 10) () exCompany).success =
        decide (0 < storedTotal (fetchCompanyDocuments ⟨30, 5, 0⟩
          (dbLatest (Date 2024 3 12) (Date 2024 3 9) 1)
          svcEmptyPages (Date 2024 3 10) (Date 2024 3 10) () exCompany).events) ∧
      ∃ tail, (fetchCompanyDocuments ⟨30, 5, 0⟩ (dbLatest (Date 2024 3 12) (Date 2024 3 9) 1)
        svcEmptyPages (Date 2024 3 10) (Date 2024 3 10) () exCompany).events =
        Event.fetch exCredential (Date 2024 3 10) (Date 2024 3 10) 1 :: tail) ∧
    ((fetchCompanyDocuments ⟨-1, 5, 0⟩ dbNoDocuments svcThreePages (Date 2024 3 10)
        (Date 2024 3 10) 0 exCompany).success = true ∧
      (fetchCompanyDocuments ⟨-1, 5, 0⟩ dbNoDocuments svcThreePages (Date 2024 3 10)
        (Date 2024 3 10) 0 exCompany).events = []) :=
  ⟨⟨((fetchCompanyDocuments_window_edge ⟨30, 5, 0⟩ (dbLatest (Date 2024 3 12) (Date 2024 3 9) 1)
        svcEmptyPages (Date 2024 3 10) (Date 2024 3 10) () exCompany exCredential [] rfl).2
        (by decide)).1,
     ((fetchCompanyDocuments_window_edge ⟨30, 5, 0⟩ (dbLatest (Date 2024 3 12) (Date 2024 3 9) 1)
        svcEmptyPages (Date 2024 3 10) (Date 2024 3 10) () exCompany exCredential [] rfl).2
        (by decide)).2 (by decide)⟩,
   (fetchCompanyDocuments_window_edge ⟨-1, 5, 0⟩ dbNoDocuments svcThreePages (Date 2024 3 10)
      (Date 2024 3 10) 0 exCompany exCredential [] rfl).1 (by decide)⟩

/-- The claim C4 fails as stated: the company has a credential, the window is
the seven days before `now`, and page 1 is fetched successfully with zero
documents; the run is neither short of a credential nor aborted on its first
page, stores nothing, and returns false. -/
theorem fetchCompanyDocuments_false_on_empty_first_page :
    dbNoDocuments.selectCredentials exCompany.ID = .ok [exCredential] ∧
      svcEmptyPages.FetchNFSeDocuments () exCredential (Date 2024 3 3) (Date 2024 3 10) 1
        = (.ok ⟨true, []⟩, ()) ∧
      (fetchCompanyDocuments ⟨7, 5, 0⟩ dbNoDocuments svcEmptyPages (Date 2024 3 10)
        (Date 2024 3 10) () exCompany).events =
        [Event.fetch exCredential (Date 2024 3 3) (Date 2024 3 10) 1] ∧
      (fetchCompanyDocuments ⟨7, 5, 0⟩ dbNoDocuments svcEmptyPages (Date 2024 3 10)
        (Date 2024 3 10) () exCompany).success = false :=
  ⟨rfl, rfl, by decide, by decide⟩

/-- C4, amended: `fetchCompanyDocuments` returns false exactly when the company
has no usable active token credential (the query errors or returns none), or
the run is not short-circuited and stores zero documents in its page loop (an
aborted first page, a first page with zero documents, stores that all fail, a
page ceiling below 1).  The short-circuit cases (start after end, skip
heuristic) return true. -/
theorem fetchCompanyDocuments_false_iff {W : Type} (cfg : SchedulerConfig) (db : DB)
    (svc : NFSeService W) (now clock : Time) (w : W) (company : Company) :
    (fetchCompanyDocuments cfg db svc now clock w company).success = false ↔
      (∀ credential others, db.selectCredentials company.ID ≠ .ok (credential :: others)) ∨
      (Time.After (calculateOptimalStartDate cfg db company.ID now) now = false ∧
        shouldSkipFetch db clock company.ID
          (calculateOptimalStartDate cfg db company.ID now) now = false ∧
        storedTotal (fetchCompanyDocuments cfg db svc now clock w company).events = 0) := by
  rcases hcred : db.selectCredentials company.ID with e | creds
  · simp [fetchCompanyDocuments, hcred]
  · cases creds with
    | nil => simp [fetchCompanyDocuments, hcred]
    | cons credential others =>
      by_cases hafter : Time.After (calculateOptimalStartDate cfg db company.ID now) now = true
      · simp [fetchCompanyDocuments, hcred, hafter]
      · by_cases hskip : shouldSkipFetch db clock company.ID
            (calculateOptimalStartDate cfg db company.ID now) now = true
        · simp [fetchCompanyDocuments, hcred, hafter, hskip]
        · simp only [Bool.not_eq_true] at hafter hskip
          rw [fetchCompanyDocuments_loop cfg db svc now clock w company credential others hcred
            hafter hskip]
          simp only [pageLoop_totalDocuments, hafter, hskip]
          have hnn := storedTotal_nonneg (pageLoop cfg svc company.ID credential
            (calculateOptimalStartDate cfg db company.ID now) now
            cfg.MaxPagesPerRun.toNat 1 w 0).events
          simp
          omega

/-! ## The calls of a run, as a list -/

/-- The calls of the loop from an iteration on take one of four shapes:
nothing (page ceiling passed), a lone fetch (the loop breaks before storing),
a fetch and a store of fewer than 100 documents (last page), or a fetch and a
store of at least 100 documents followed by the calls of the next iteration. -/
theorem pageLoop_events_cases {W : Type} (cfg : SchedulerConfig) (svc : NFSeService W)
    (companyID : Int) (credential : CompanyCredential) (startDate endDate : Time)
    (fuel : Nat) (page : Int) (w : W) (total : Int) :
    (pageLoop cfg svc companyID credential startDate endDate (fuel + 1) page w total).events = [] ∨
    (pageLoop cfg svc companyID credential startDate endDate (fuel + 1) page w total).events =
      [Event.fetch credential startDate endDate page] ∨
    ∃ (docs : List Document) (b : Bool),
      (docs.length < 100 ∧
        (pageLoop cfg svc companyID credential startDate endDate (fuel + 1) page w total).events =
          [Event.fetch credential startDate endDate page, Event.store companyID docs b]) ∨
      (100 ≤ docs.length ∧ ∃ (w2 : W) (total2 : Int),
        (pageLoop cfg svc companyID credential startDate endDate (fuel + 1) page w total).events =
          Event.fetch credential startDate endDate page :: Event.store companyID docs b ::
            (pageLoop cfg svc companyID credential startDate endDate fuel (page + 1) w2
              total2).events) := by
  by_cases hpage : page ≤ cfg.MaxPagesPerRun
  · rcases hf : svc.FetchNFSeDocuments w credential startDate endDate page with ⟨r, w1⟩
    cases r with
    | error e =>
      right; left
      unfold pageLoop
      simp [hpage, hf]
    | ok result =>
      by_cases hs : result.Success = true
      · by_cases hz : 0 < result.Documents.length
        · right; right
          refine ⟨result.Documents,
            (svc.StoreNFSeDocuments w1 companyID result.Documents).1.isNone, ?_⟩
          rw [pageLoop_step cfg svc companyID credential startDate endDate fuel page w total
            result w1 hpage hf hs hz]
          by_cases hlt : result.Documents.length < 100
          · left
            exact ⟨hlt, by simp [hlt]⟩
          · right
            refine ⟨by omega, (svc.StoreNFSeDocuments w1 companyID result.Documents).2,
              (match (svc.StoreNFSeDocuments w1 companyID result.Documents).1 with
                | some _ => total
                | none => total + result.Documents.length), ?_⟩
            simp [hlt]
        · right; left
          have hz0 : result.Documents.length = 0 := by omega
          unfold pageLoop
          simp [hpage, hf, hz0]
      · right; left
        have hs0 : result.Success = false := by simpa using hs
        unfold pageLoop
        simp [hpage, hf, hs0]
  · left
    unfold pageLoop
    simp [hpage]

/-- Where a store call sits in a list that starts with a fetch and a store. -/
theorem store_position (c : CompanyCredential) (s e : Time) (p : Int) (cid1 : Int)
    (docs1 : List Document) (b1 : Bool) (rest pre post : List Event) (cid : Int)
    (docs : List Document) (b : Bool)
    (h : Event.fetch c s e p :: Event.store cid1 docs1 b1 :: rest =
      pre ++ Event.store cid docs b :: post) :
    (docs1 = docs ∧ b1 = b ∧ post = rest) ∨
      ∃ pre2, rest = pre2 ++ Event.store cid docs b :: post := by
  cases pre with
  | nil => simp at h
  | cons x pre1 =>
    cases pre1 with
    | nil =>
      simp at h
      exact Or.inl ⟨h.2.1.2.1, h.2.1.2.2, h.2.2.symm⟩
    | cons y pre2 =>
      simp at h
      exact Or.inr ⟨pre2, h.2.2⟩

/-- Where a fetch followed by a store sits in a list that starts with a fetch
and a store. -/
theorem fetch_store_position (c1 : CompanyCredential) (s1 e1 : Time) (p1 : Int) (cid1 : Int)
    (docs1 : List Document) (b1 : Bool) (rest pre post : List Event)
    (c : CompanyCredential) (s e : Time) (p : Int) (cid : Int)
    (docs : List Document) (b : Bool)
    (h : Event.fetch c1 s1 e1 p1 :: Event.store cid1 docs1 b1 :: rest =
      pre ++ Event.fetch c s e p :: Event.store cid docs b :: post) :
    (c1 = c ∧ s1 = s ∧ e1 = e ∧ p1 = p ∧ docs1 = docs ∧ post = rest) ∨
      ∃ pre2, rest = pre2 ++ Event.fetch c s e p :: Event.store cid docs b :: post := by
  cases pre with
  | nil =>
    simp at h
    exact Or.inl ⟨h.1.1, h.1.2.1, h.1.2.2.1, h.1.2.2.2, h.2.1.2.1, h.2.2.symm⟩
  | cons x pre1 =>
    cases pre1 with
    | nil => simp at h
    | cons y pre2 =>
      simp at h
      exact Or.inr ⟨pre2, h.2.2⟩

/-- In the calls of the loop, a store of fewer than 100 documents is the last
call. -/
theorem pageLoop_short_store_last {W : Type} (cfg : SchedulerConfig) (svc : NFSeService W)
    (companyID : Int) (credential : CompanyCredential) (startDate endDate : Time)
    (fuel : Nat) (page : Int) (w : W) (total : Int) (pre post : List Event) (cid : Int)
    (docs : List Document) (b : Bool)
    (h : (pageLoop cfg svc companyID credential startDate endDate fuel page w total).events =
      pre ++ Event.store cid docs b :: post)
    (hlt : docs.length < 100) : post = [] := by
  induction fuel generalizing page w total pre with
  | zero => simp [pageLoop] at h
  | succ fuel ih =>
    rcases pageLoop_events_cases cfg svc companyID credential startDate endDate fuel page w total
      with h0 | h1 | ⟨docs1, b1, ⟨hshort, h2⟩ | ⟨hfull, w2, total2, h3⟩⟩
    · rw [h0] at h
      simp at h
    · rw [h1] at h
      cases pre with
      | nil => simp at h
      | cons x pre1 => simp at h
    · rw [h2] at h
      rcases store_position _ _ _ _ _ _ _ _ _ _ _ _ _ h with ⟨_, _, hpost⟩ | ⟨pre2, hrest⟩
      · exact hpost
      · simp at hrest
    · rw [h3] at h
      rcases store_position _ _ _ _ _ _ _ _ _ _ _ _ _ h with ⟨hd, _, _⟩ | ⟨pre2, hrest⟩
      · subst hd
        omega
      · exact ih (page + 1) w2 total2 pre2 hrest

/-- In the calls of the loop, a failed store of at least 100 documents for a
page below the ceiling is followed at once by the fetch of the next page. -/
theorem pageLoop_fetch_after_store {W : Type} (cfg : SchedulerConfig) (svc : NFSeService W)
    (companyID : Int) (credential : CompanyCredential) (startDate endDate : Time)
    (fuel : Nat) (page : Int) (w : W) (total : Int) (pre post : List Event)
    (c : CompanyCredential) (s e : Time) (p : Int) (cid : Int) (docs : List Document) (b : Bool)
    (hfuel : (cfg.MaxPagesPerRun + 1 - page).toNat ≤ fuel)
    (h : (pageLoop cfg svc companyID credential startDate endDate fuel page w total).events =
      pre ++ Event.fetch c s e p :: Event.store cid docs b :: post)
    (hfull : 100 ≤ docs.length) (hceil : p + 1 ≤ cfg.MaxPagesPerRun) :
    ∃ tail, post = Event.fetch c s e (p + 1) :: tail := by
  induction fuel generalizing page w total pre with
  | zero => simp [pageLoop] at h
  | succ fuel ih =>
    rcases pageLoop_events_cases cfg svc companyID credential startDate endDate fuel page w total
      with h0 | h1 | ⟨docs1, b1, ⟨hshort, h2⟩ | ⟨_, w2, total2, h3⟩⟩
    · rw [h0] at h
      simp at h
    · rw [h1] at h
      cases pre with
      | nil => simp at h
      | cons x pre1 => simp at h
    · rw [h2] at h
      rcases fetch_store_position _ _ _ _ _ _ _ _ _ _ _ _ _ _ _ _ _ h
        with ⟨_, _, _, _, hd, _⟩ | ⟨pre2, hrest⟩
      · subst hd
        omega
      · simp at hrest
    · rw [h3] at h
      rcases fetch_store_position _ _ _ _ _ _ _ _ _ _ _ _ _ _ _ _ _ h
        with ⟨hc, hs, he, hp, _, hpost⟩ | ⟨pre2, hrest⟩
      · subst hc hs he hp
        rw [hpost]
        exact pageLoop_events_head cfg svc companyID credential startDate endDate fuel
          (page + 1) w2 total2 hceil (by omega)
      · exact ih (page + 1) w2 total2 pre2 (by omega) hrest

/-- The calls of a run are those of its page loop, or none at all. -/
theorem fetchCompanyDocuments_events {W : Type} (cfg : SchedulerConfig) (db : DB)
    (svc : NFSeService W) (now clock : Time) (w : W) (company : Company) :
    (fetchCompanyDocuments cfg db svc now clock w company).events = [] ∨
    ∃ credential,
      (fetchCompanyDocuments cfg db svc now clock w company).events =
        (pageLoop cfg svc company.ID credential
          (calculateOptimalStartDate cfg db company.ID now) now
          cfg.MaxPagesPerRun.toNat 1 w 0).events := by
  unfold fetchCompanyDocuments
  rcases db.selectCredentials company.ID with e | creds
  · exact Or.inl rfl
  · cases creds with
    | nil => exact Or.inl rfl
    | cons credential others =>
      simp only
      split_ifs
      · exact Or.inl rfl
      · exact Or.inl rfl
      · exact Or.inr ⟨credential, rfl⟩

/-! ## Pagination -/

/-- C8: a store error on a page does not stop pagination.  At any iteration of
the page loop whose page is fetched successfully with at least 100 documents
and fails to store, below the page ceiling: the counter is left as it was, the
loop goes on with the next page, whose fetch is the next call, and that page is
handed to the store when it is fetched successfully with a document.  The
counter at the end is the sum of the pages stored without error.  In a whole
run, a failed store of a full page below the ceiling is followed at once by the
fetch of the next page.  With three pages, the first two full, and a store
that fails on page 2 only, pages 1, 2 and 3 are fetched, pages 1 and 3 are
counted, and the run returns true. -/
theorem pageLoop_continues_after_store_error :
    (∀ (W : Type) (cfg : SchedulerConfig) (svc : NFSeService W) (companyID : Int)
        (credential : CompanyCredential) (startDate endDate : Time) (fuel : Nat) (page : Int)
        (w : W) (total : Int) (result : FetchResult) (w1 : W) (err : String) (w2 : W),
      page + 1 ≤ cfg.MaxPagesPerRun →
      (cfg.MaxPagesPerRun + 1 - page).toNat ≤ fuel →
      svc.FetchNFSeDocuments w credential startDate endDate page = (.ok result, w1) →
      result.Success = true →
      100 ≤ result.Documents.length →
      svc.StoreNFSeDocuments w1 companyID result.Documents = (some err, w2) →
      (pageLoop cfg svc companyID credential startDate endDate fuel page w total).totalDocuments =
          (pageLoop cfg svc companyID credential startDate endDate (fuel - 1) (page + 1) w2
            total).totalDocuments ∧
        (pageLoop cfg svc companyID credential startDate endDate fuel page w total).events =
          Event.fetch credential startDate endDate page ::
            Event.store companyID result.Documents false ::
            (pageLoop cfg svc companyID credential startDate endDate (fuel - 1) (page + 1) w2
              total).events ∧
        (∃ tail,
          (pageLoop cfg svc companyID credential startDate endDate (fuel - 1) (page + 1) w2
            total).events = Event.fetch credential startDate endDate (page + 1) :: tail) ∧
        (∀ (result2 : FetchResult) (w3 : W),
          svc.FetchNFSeDocuments w2 credential startDate endDate (page + 1) = (.ok result2, w3) →
          result2.Success = true →
          0 < result2.Documents.length →
          ∃ tail,
            (pageLoop cfg svc companyID credential startDate endDate (fuel - 1) (page + 1) w2
              total).events =
              Event.fetch credential startDate endDate (page + 1) ::
                Event.store companyID result2.Documents
                  (svc.StoreNFSeDocuments w3 companyID result2.Documents).1.isNone :: tail)) ∧
    (∀ (W : Type) (cfg : SchedulerConfig) (svc : NFSeService W) (companyID : Int)
        (credential : CompanyCredential) (startDate endDate : Time) (fuel : Nat) (page : Int)
        (w : W) (total : Int),
      (pageLoop cfg svc companyID credential startDate endDate fuel page w total).totalDocuments =
        total + storedTotal
          (pageLoop cfg svc companyID credential startDate endDate fuel page w total).events) ∧
    (∀ (W : Type) (cfg : SchedulerConfig) (db : DB) (svc : NFSeService W) (now clock : Time)
        (w : W) (company : Company) (pre post : List Event) (c : CompanyCredential)
        (s e : Time) (p : Int) (cid : Int) (docs : List Document),
      (fetchCompanyDocuments cfg db svc now clock w company).events =
          pre ++ Event.fetch c s e p :: Event.store cid docs false :: post →
      100 ≤ docs.length →
      p + 1 ≤ cfg.MaxPagesPerRun →
      ∃ tail, post = Event.fetch c s e (p + 1) :: tail) ∧
    ((fetchCompanyDocuments ⟨7, 5, 0⟩ dbNoDocuments svcThreePages (Date 2024 3 10)
        (Date 2024 3 10) 0 exCompany).events =
        [Event.fetch exCredential (Date 2024 3 3) (Date 2024 3 10) 1,
         Event.store 1 (List.replicate 100 (exDocument 0 0)) true,
         Event.fetch exCredential (Date 2024 3 3) (Date 2024 3 10) 2,
         Event.store 1 (List.replicate 100 (exDocument 0 0)) false,
         Event.fetch exCredential (Date 2024 3 3) (Date 2024 3 10) 3,
         Event.store 1 (List.replicate 40 (exDocument 0 0)) true] ∧
      storedTotal (fetchCompanyDocuments ⟨7, 5, 0⟩ dbNoDocuments svcThreePages (Date 2024 3 10)
        (Date 2024 3 10) 0 exCompany).events = 140 ∧
      (fetchCompanyDocuments ⟨7, 5, 0⟩ dbNoDocuments svcThreePages (Date 2024 3 10)
        (Date 2024 3 10) 0 exCompany).success = true) := by
  refine ⟨?_, ?_, ?_, by decide, by decide, by decide⟩
  · intro W cfg svc companyID credential startDate endDate fuel page w total result w1 err w2
      hceil hfuel hfetch hsucc hfull hstore
    obtain ⟨n, rfl⟩ : ∃ n, fuel = n + 1 := ⟨fuel - 1, by omega⟩
    have hlt : ¬ result.Documents.length < 100 := by omega
    rw [pageLoop_step cfg svc companyID credential startDate endDate n page w total result w1
      (by omega) hfetch hsucc (by omega)]
    simp only [hlt, if_false, hstore, Option.isNone_some, Nat.add_sub_cancel, true_and]
    constructor
    · exact pageLoop_events_head cfg svc companyID credential startDate endDate n (page + 1)
        w2 total hceil (by omega)
    · intro result2 w3 hfetch2 hsucc2 hpos2
      obtain ⟨m, rfl⟩ : ∃ m, n = m + 1 := ⟨n - 1, by omega⟩
      rw [pageLoop_step cfg svc companyID credential startDate endDate m (page + 1) w2 total
        result2 w3 hceil hfetch2 hsucc2 hpos2]
      split_ifs
      · exact ⟨[], rfl⟩
      · exact ⟨_, rfl⟩
  · intro W cfg svc companyID credential startDate endDate fuel page w total
    exact pageLoop_totalDocuments cfg svc companyID credential startDate endDate fuel page w total
  · intro W cfg db svc now clock w company pre post c s e p cid docs h hfull hceil
    rcases fetchCompanyDocuments_events cfg db svc now clock w company with h0 | ⟨cr, hloop⟩
    · rw [h0] at h
      simp at h
    · rw [hloop] at h
      exact pageLoop_fetch_after_store cfg svc company.ID cr _ now _ 1 w 0 pre post c s e p cid
        docs false (by omega) h hfull hceil

/-- C8 at page 2 of the three-page service: the world has seen one store, the
counter holds the 100 documents of page 1, the store of page 2 fails, and the
loop goes on to fetch and store page 3 with the counter unchanged; and in the
whole run over that service the failed store of page 2 is followed by the
fetch of page 3. -/
theorem pageLoop_continues_after_store_error_witness :
    (pageLoop ⟨7, 5, 0⟩ svcThreePages 1 exCredential (Date 2024 3 3) (Date 2024 3 10)
        4 2 1 100).totalDocuments =
      (pageLoop ⟨7, 5, 0⟩ svcThreePages 1 exCredential (Date 2024 3 3) (Date 2024 3 10)
        (4 - 1) (2 + 1) 2 100).totalDocuments ∧
    (pageLoop ⟨7, 5, 0⟩ svcThreePages 1 exCredential (Date 2024 3 3) (Date 2024 3 10)
        4 2 1 100).events =
      Event.fetch exCredential (Date 2024 3 3) (Date 2024 3 10) 2 ::
        Event.store 1 (List.replicate 100 (exDocument 0 0)) false ::
        (pageLoop ⟨7, 5, 0⟩ svcThreePages 1 exCredential (Date 2024 3 3) (Date 2024 3 10)
          (4 - 1) (2 + 1) 2 100).events ∧
    (∃ tail,
      (pageLoop ⟨7, 5, 0⟩ svcThreePages 1 exCredential (Date 2024 3 3) (Date 2024 3 10)
        (4 - 1) (2 + 1) 2 100).events =
        Event.fetch exCredential (Date 2024 3 3) (Date 2024 3 10) (2 + 1) :: tail) ∧
    ∃ tail,
      [Event.fetch exCredential (Date 2024 3 3) (Date 2024 3 10) 3,
        Event.store 1 (List.replicate 40 (exDocument 0 0)) true] =
        Event.fetch exCredential (Date 2024 3 3) (Date 2024 3 10) (2 + 1) :: tail :=
  have h := pageLoop_continues_after_store_error.1 Nat ⟨7, 5, 0⟩ svcThreePages 1 exCredential
    (Date 2024 3 3) (Date 2024 3 10) 4 2 1 100 ⟨true, List.replicate 100 (exDocument 0 0)⟩ 1
    "insert failed" 2 (by decide) (by decide) rfl rfl (by decide) rfl
  ⟨h.1, h.2.1, h.2.2.1,
   pageLoop_continues_after_store_error.2.2.1 Nat ⟨7, 5, 0⟩ dbNoDocuments svcThreePages
    (Date 2024 3 10) (Date 2024 3 10) 0 exCompany
    [Event.fetch exCredential (Date 2024 3 3) (Date 2024 3 10) 1,
      Event.store 1 (List.replicate 100 (exDocument 0 0)) true]
    [Event.fetch exCredential (Date 2024 3 3) (Date 2024 3 10) 3,
      Event.store 1 (List.replicate 40 (exDocument 0 0)) true]
    exCredential (Date 2024 3 3) (Date 2024 3 10) 2 1 (List.replicate 100 (exDocument 0 0))
    (by decide) (by decide) (by decide)⟩

/-- C9: at any iteration of the page loop whose page is fetched successfully
with `n` documents, `0 < n < 100`, the calls made from that iteration on are
the fetch of the page and one store of exactly its documents, and the world is
left as that store leaves it: no further fetch, no further store.  In a whole
run, a store of fewer than 100 documents is the last call. -/
theorem pageLoop_stops_after_short_page :
    (∀ (W : Type) (cfg : SchedulerConfig) (svc : NFSeService W) (companyID : Int)
        (credential : CompanyCredential) (startDate endDate : Time) (fuel : Nat) (page : Int)
        (w : W) (total : Int) (result : FetchResult) (w1 : W),
      page ≤ cfg.MaxPagesPerRun →
      (cfg.MaxPagesPerRun + 1 - page).toNat ≤ fuel →
      svc.FetchNFSeDocuments w credential startDate endDate page = (.ok result, w1) →
      result.Success = true →
      0 < result.Documents.length →
      result.Documents.length < 100 →
      (pageLoop cfg svc companyID credential startDate endDate fuel page w total).events =
          [Event.fetch credential startDate endDate page,
           Event.store companyID result.Documents
             (svc.StoreNFSeDocuments w1 companyID result.Documents).1.isNone] ∧
        (pageLoop cfg svc companyID credential startDate endDate fuel page w total).world =
          (svc.StoreNFSeDocuments w1 companyID result.Documents).2) ∧
    (∀ (W : Type) (cfg : SchedulerConfig) (db : DB) (svc : NFSeService W) (now clock : Time)
        (w : W) (company : Company) (pre post : List Event) (cid : Int)
        (docs : List Document) (b : Bool),
      (fetchCompanyDocuments cfg db svc now clock w company).events =
          pre ++ Event.store cid docs b :: post →
      docs.length < 100 →
      post = []) := by
  constructor
  · intro W cfg svc companyID credential startDate endDate fuel page w total result w1
      hpage hfuel hfetch hsucc hpos hlt
    obtain ⟨n, rfl⟩ : ∃ n, fuel = n + 1 := ⟨fuel - 1, by omega⟩
    rw [pageLoop_step cfg svc companyID credential startDate endDate n page w total result w1
      hpage hfetch hsucc hpos]
    simp [hlt]
  · intro W cfg db svc now clock w company pre post cid docs b h hlt
    rcases fetchCompanyDocuments_events cfg db svc now clock w company with h0 | ⟨cr, hloop⟩
    · rw [h0] at h
      simp at h
    · rw [hloop] at h
      exact pageLoop_short_store_last cfg svc company.ID cr _ now _ 1 w 0 pre post cid docs b h hlt

/-- C9 at page 3 of the three-page service, which holds 40 documents: the loop
fetches it, stores it and stops, although the ceiling is 5 pages. -/
theorem pageLoop_stops_after_short_page_witness :
    (pageLoop ⟨7, 5, 0⟩ svcThreePages 1 exCredential (Date 2024 3 3) (Date 2024 3 10)
        3 3 2 100).events =
      [Event.fetch exCredential (Date 2024 3 3) (Date 2024 3 10) 3,
       Event.store 1 (List.replicate 40 (exDocument 0 0)) true] ∧
    (pageLoop ⟨7, 5, 0⟩ svcThreePages 1 exCredential (Date 2024 3 3) (Date 2024 3 10)
        3 3 2 100).world = 3 :=
  pageLoop_stops_after_short_page.1 Nat ⟨7, 5, 0⟩ svcThreePages 1 exCredential
    (Date 2024 3 3) (Date 2024 3 10) 3 3 2 100 ⟨true, List.replicate 40 (exDocument 0 0)⟩ 2
    (by decide) (by decide) rfl rfl (by decide) (by decide)

/-! ## Page requests of a run -/

/-- The page fetches of the loop from an iteration on are requests for
consecutive pages starting at the page of that iteration, all with the
credential and the window of the run, and there are no more of them than pages
left up to `MaxPagesPerRun`. -/
theorem pageLoop_fetchCalls {W : Type} (cfg : SchedulerConfig) (svc : NFSeService W)
    (companyID : Int) (credential : CompanyCredential) (startDate endDate : Time)
    (fuel : Nat) (page : Int) (w : W) (total : Int) :
    ∃ n : Nat, n ≤ (cfg.MaxPagesPerRun + 1 - page).toNat ∧
      fetchCalls (pageLoop cfg svc companyID credential startDate endDate fuel page w
        total).events =
        (List.range n).map fun (i : Nat) =>
          Event.fetch credential startDate endDate (page + (i : Int)) := by
  induction fuel generalizing page w total with
  | zero => exact ⟨0, by omega, by simp [pageLoop, fetchCalls]⟩
  | succ fuel ih =>
    by_cases hpage : page ≤ cfg.MaxPagesPerRun
    · rcases pageLoop_events_cases cfg svc companyID credential startDate endDate fuel page w total
        with h0 | h1 | ⟨docs1, b1, ⟨_, h2⟩ | ⟨_, w2, total2, h3⟩⟩
      · exact ⟨0, by omega, by simp [h0, fetchCalls]⟩
      · exact ⟨1, by omega, by simp [h1, fetchCalls, List.range_succ_eq_map]⟩
      · exact ⟨1, by omega, by simp [h2, fetchCalls, List.range_succ_eq_map]⟩
      · obtain ⟨n, hn, hcalls⟩ := ih (page + 1) w2 total2
        refine ⟨n + 1, by omega, ?_⟩
        have hcons : fetchCalls (pageLoop cfg svc companyID credential startDate endDate
            (fuel + 1) page w total).events =
            Event.fetch credential startDate endDate page ::
              fetchCalls (pageLoop cfg svc companyID credential startDate endDate fuel
                (page + 1) w2 total2).events := by
          rw [h3]
          simp [fetchCalls]
        rw [hcons, hcalls, List.range_succ_eq_map, List.map_cons, List.map_map]
        simp only [Nat.cast_zero, add_zero, List.cons.injEq, true_and]
        apply List.map_congr_left
        intro i _
        simp only [Function.comp, Nat.succ_eq_add_one, Nat.cast_add, Nat.cast_one]
        congr 1
        ring
    · refine ⟨0, by omega, ?_⟩
      unfold pageLoop
      simp [hpage, fetchCalls]

/-- The page fetches of a run, counted: there are `k` of them, at most
`max MaxPagesPerRun 0`, and they are the requests for pages 1 to `k` in that
order with the first credential of the company and the computed window. -/
theorem fetchCompanyDocuments_fetchCalls {W : Type} (cfg : SchedulerConfig) (db : DB)
    (svc : NFSeService W) (now clock : Time) (w : W) (company : Company) :
    ∃ (k : Nat) (credential : CompanyCredential),
      (k : Int) ≤ max cfg.MaxPagesPerRun 0 ∧
      (0 < k → (k : Int) ≤ cfg.MaxPagesPerRun ∧
        ∃ others, db.selectCredentials company.ID = .ok (credential :: others)) ∧
      (fetchCalls (fetchCompanyDocuments cfg db svc now clock w company).events).length = k ∧
      fetchCalls (fetchCompanyDocuments cfg db svc now clock w company).events =
        (List.range k).map fun (i : Nat) =>
          Event.fetch credential (calculateOptimalStartDate cfg db company.ID now) now
            ((i : Int) + 1) := by
  have hnone : ∀ credential : CompanyCredential,
      (fetchCompanyDocuments cfg db svc now clock w company).events = [] →
      ∃ (k : Nat) (credential : CompanyCredential),
        (k : Int) ≤ max cfg.MaxPagesPerRun 0 ∧
        (0 < k → (k : Int) ≤ cfg.MaxPagesPerRun ∧
          ∃ others, db.selectCredentials company.ID = .ok (credential :: others)) ∧
        (fetchCalls (fetchCompanyDocuments cfg db svc now clock w company).events).length = k ∧
        fetchCalls (fetchCompanyDocuments cfg db svc now clock w company).events =
          (List.range k).map fun (i : Nat) =>
            Event.fetch credential (calculateOptimalStartDate cfg db company.ID now) now
              ((i : Int) + 1) := by
    intro credential h
    refine ⟨0, credential, ?_, ?_, ?_, ?_⟩
    · simp
    · intro hk
      omega
    · simp [h, fetchCalls]
    · simp [h, fetchCalls]
  have hcases : (∃ e, db.selectCredentials company.ID = .error e) ∨
      db.selectCredentials company.ID = .ok [] ∨
      ∃ credential others, db.selectCredentials company.ID = .ok (credential :: others) := by
    rcases db.selectCredentials company.ID with e | creds
    · exact Or.inl ⟨e, rfl⟩
    · cases creds with
      | nil => exact Or.inr (Or.inl rfl)
      | cons credential others => exact Or.inr (Or.inr ⟨credential, others, rfl⟩)
  rcases hcases with ⟨e, hcred⟩ | hcred | ⟨credential, others, hcred⟩
  · exact hnone ⟨0, 0, ""⟩ (by simp [fetchCompanyDocuments, hcred])
  · exact hnone ⟨0, 0, ""⟩ (by simp [fetchCompanyDocuments, hcred])
  · by_cases hafter : Time.After (calculateOptimalStartDate cfg db company.ID now) now = true
    · exact hnone credential (by simp [fetchCompanyDocuments, hcred, hafter])
    · by_cases hskip : shouldSkipFetch db clock company.ID
          (calculateOptimalStartDate cfg db company.ID now) now = true
      · exact hnone credential (by simp [fetchCompanyDocuments, hcred, hafter, hskip])
      · simp only [Bool.not_eq_true] at hafter hskip
        obtain ⟨n, hn, hcalls⟩ := pageLoop_fetchCalls cfg svc company.ID credential
          (calculateOptimalStartDate cfg db company.ID now) now cfg.MaxPagesPerRun.toNat 1 w 0
        have hrun := fetchCompanyDocuments_loop cfg db svc now clock w company credential
          others hcred hafter hskip
        have hlist : fetchCalls (fetchCompanyDocuments cfg db svc now clock w company).events =
            (List.range n).map fun (i : Nat) =>
              Event.fetch credential (calculateOptimalStartDate cfg db company.ID now) now
                ((i : Int) + 1) := by
          rw [hrun]
          simp only
          rw [hcalls]
          apply List.map_congr_left
          intro i _
          congr 1
          ring
        refine ⟨n, credential, by omega, ?_, ?_, hlist⟩
        · intro hk
          exact ⟨by omega, others, hcred⟩
        · rw [hlist]
          simp

/-- C11: whatever the service and the database do and whatever
`MaxPagesPerRun` is, one run of `fetchCompanyDocuments` makes at most
`max MaxPagesPerRun 0` page fetches, and they are the requests for pages
1, 2, ..., k in that order, for some `k ≤ MaxPagesPerRun` (none when `k < 1`),
every one with the first credential of the company and the window from the
computed start to `now`. -/
theorem fetchCompanyDocuments_page_requests {W : Type} (cfg : SchedulerConfig) (db : DB)
    (svc : NFSeService W) (now clock : Time) (w : W) (company : Company) :
    ∃ (k : Int) (credential : CompanyCredential),
      k ≤ cfg.MaxPagesPerRun ∧
      ((fetchCalls (fetchCompanyDocuments cfg db svc now clock w company).events).length : Int)
        ≤ max cfg.MaxPagesPerRun 0 ∧
      (fetchCalls (fetchCompanyDocuments cfg db svc now clock w company).events).length
        = k.toNat ∧
      (0 < k → ∃ others, db.selectCredentials company.ID = .ok (credential :: others)) ∧
      fetchCalls (fetchCompanyDocuments cfg db svc now clock w company).events =
        (List.range k.toNat).map fun (i : Nat) =>
          Event.fetch credential (calculateOptimalStartDate cfg db company.ID now) now
            ((i : Int) + 1) := by
  obtain ⟨n, credential, hbound, hpos, hlen, hlist⟩ :=
    fetchCompanyDocuments_fetchCalls cfg db svc now clock w company
  by_cases hn : n = 0
  · subst hn
    refine ⟨min 0 cfg.MaxPagesPerRun, credential, by omega, by omega, by omega, ?_, ?_⟩
    · intro hk
      omega
    · have hz : (min 0 cfg.MaxPagesPerRun).toNat = 0 := by omega
      rw [hz]
      exact hlist
  · have hpos2 := hpos (by omega)
    refine ⟨(n : Int), credential, hpos2.1, by omega, by omega, fun _ => hpos2.2, ?_⟩
    rw [Int.toNat_ofNat]
    exact hlist

/-- C11 on the run over the three-page service with a ceiling of 5 pages: the
page fetches are the requests for pages 1, 2 and 3. -/
theorem fetchCompanyDocuments_page_requests_witness :
    (∃ (k : Int) (credential : CompanyCredential),
      k ≤ 5 ∧
      ((fetchCalls (fetchCompanyDocuments ⟨7, 5, 0⟩ dbNoDocuments svcThreePages (Date 2024 3 10)
        (Date 2024 3 10) 0 exCompany).events).length : Int) ≤ max (5 : Int) 0 ∧
      (fetchCalls (fetchCompanyDocuments ⟨7, 5, 0⟩ dbNoDocuments svcThreePages (Date 2024 3 10)
        (Date 2024 3 10) 0 exCompany).events).length = k.toNat ∧
      (0 < k →
        ∃ others, dbNoDocuments.selectCredentials exCompany.ID = .ok (credential :: others)) ∧
      fetchCalls (fetchCompanyDocuments ⟨7, 5, 0⟩ dbNoDocuments svcThreePages (Date 2024 3 10)
        (Date 2024 3 10) 0 exCompany).events =
        (List.range k.toNat).map fun (i : Nat) =>
          Event.fetch credential
            (calculateOptimalStartDate ⟨7, 5, 0⟩ dbNoDocuments exCompany.ID (Date 2024 3 10))
            (Date 2024 3 10) ((i : Int) + 1)) ∧
    fetchCalls (fetchCompanyDocuments ⟨7, 5, 0⟩ dbNoDocuments svcThreePages (Date 2024 3 10)
        (Date 2024 3 10) 0 exCompany).events =
      [Event.fetch exCredential (Date 2024 3 3) (Date 2024 3 10) 1,
       Event.fetch exCredential (Date 2024 3 3) (Date 2024 3 10) 2,
       Event.fetch exCredential (Date 2024 3 3) (Date 2024 3 10) 3] :=
  ⟨fetchCompanyDocuments_page_requests ⟨7, 5, 0⟩ dbNoDocuments svcThreePages (Date 2024 3 10)
    (Date 2024 3 10) 0 exCompany, by decide⟩

/-! ## Sweep over the companies -/

/-- The sweep calls `fetchCompanyDocuments` once for each company of the list,
in the order of the list. -/
theorem sweepLoop_companies {W : Type} (cfg : SchedulerConfig) (svc : NFSeService W)
    (around : Nat → W → Surroundings) (index : Nat) (companies : List Company) (w : W)
    (successCount : Int) :
    (sweepLoop cfg svc around index companies w successCount).invocations.map
      Invocation.company = companies := by
  induction companies generalizing index w successCount with
  | nil => simp [sweepLoop]
  | cons company rest ih => simp [sweepLoop, ih]

/-- The counter after the sweep is the counter before it plus the number of
calls that returned true. -/
theorem sweepLoop_successCount {W : Type} (cfg : SchedulerConfig) (svc : NFSeService W)
    (around : Nat → W → Surroundings) (index : Nat) (companies : List Company) (w : W)
    (successCount : Int) :
    (sweepLoop cfg svc around index companies w successCount).successCount =
      successCount +
        successes (sweepLoop cfg svc around index companies w successCount).invocations := by
  induction companies generalizing index w successCount with
  | nil => simp [sweepLoop, successes]
  | cons company rest ih =>
    simp only [sweepLoop]
    rw [ih]
    cases hrun : (fetchCompanyDocuments cfg (around index w).db svc (around index w).now
        (around index w).clock w company).success
    · simp [successes, List.filter_cons]
    · simp [successes, List.filter_cons]
      ring

/-- The calls that returned true are no more than the calls. -/
theorem successes_le_length (invocations : List Invocation) :
    successes invocations ≤ invocations.length := by
  unfold successes
  exact_mod_cast List.length_filter_le _ invocations

/-- Each call recorded by the sweep is the run of `fetchCompanyDocuments` on the
company at its position, in the world left by the calls before it. -/
theorem sweepLoop_invocation {W : Type} (cfg : SchedulerConfig) (svc : NFSeService W)
    (around : Nat → W → Surroundings) (index : Nat) (companies : List Company) (w : W)
    (successCount : Int) (j : Nat) (inv : Invocation)
    (h : (sweepLoop cfg svc around index companies w successCount).invocations[j]? = some inv) :
    ∃ wj : W,
      inv.success = (fetchCompanyDocuments cfg (around (index + j) wj).db svc
        (around (index + j) wj).now (around (index + j) wj).clock wj inv.company).success ∧
      inv.events = (fetchCompanyDocuments cfg (around (index + j) wj).db svc
        (around (index + j) wj).now (around (index + j) wj).clock wj inv.company).events := by
  induction companies generalizing index w successCount j with
  | nil => simp [sweepLoop] at h
  | cons company rest ih =>
    simp only [sweepLoop] at h
    cases j with
    | zero =>
      simp only [List.getElem?_cons_zero, Option.some.injEq] at h
      subst h
      exact ⟨w, rfl, rfl⟩
    | succ j =>
      simp only [List.getElem?_cons_succ] at h
      obtain ⟨wj, h1, h2⟩ := ih (index + 1) _ _ j h
      have e : index + 1 + j = index + (j + 1) := by omega
      rw [e] at h1 h2
      exact ⟨wj, h1, h2⟩

/-- C12: in one sweep over a successfully listed list of companies,
`fetchCompanyDocuments` is called exactly once for every listed company, in the
order of the list, whatever the calls before it returned and did; each recorded
result is the result of that run; the success count of the summary is the
number of calls that returned true, and it is at most the number of
companies. -/
theorem fetchAllCompanies_sweep {W : Type} (cfg : SchedulerConfig) (svc : NFSeService W)
    (companies : List Company) (around : Nat → W → Surroundings) (w : W) :
    (fetchAllCompanies cfg svc (.ok companies) around w).invocations.map Invocation.company
        = companies ∧
      (∀ (j : Nat) (inv : Invocation),
        (fetchAllCompanies cfg svc (.ok companies) around w).invocations[j]? = some inv →
        ∃ wj : W,
          inv.success = (fetchCompanyDocuments cfg (around j wj).db svc (around j wj).now
            (around j wj).clock wj inv.company).success ∧
          inv.events = (fetchCompanyDocuments cfg (around j wj).db svc (around j wj).now
            (around j wj).clock wj inv.company).events) ∧
      (fetchAllCompanies cfg svc (.ok companies) around w).summary =
        some ⟨companies.length,
          successes (fetchAllCompanies cfg svc (.ok companies) around w).invocations⟩ ∧
      successes (fetchAllCompanies cfg svc (.ok companies) around w).invocations
        ≤ companies.length := by
  have hmap := sweepLoop_companies cfg svc around 0 companies w 0
  have hlen : (sweepLoop cfg svc around 0 companies w 0).invocations.length
      = companies.length := by
    have := congrArg List.length hmap
    simpa using this
  refine ⟨hmap, ?_, ?_, ?_⟩
  · intro j inv h
    have := sweepLoop_invocation cfg svc around 0 companies w 0 j inv h
    simpa using this
  · simp only [fetchAllCompanies]
    rw [sweepLoop_successCount]
    simp
  · have := successes_le_length (sweepLoop cfg svc around 0 companies w 0).invocations
    rw [hlen] at this
    exact this

/-- C12 on a sweep over two companies of which the first has no credential:
its run fails, the second company is still handled and succeeds, and the
summary counts one success out of two. -/
theorem fetchAllCompanies_sweep_witness :
    (fetchAllCompanies ⟨7, 5, 0⟩ svcThreePages (.ok [exCompanyB, exCompany])
        (fun _ _ => ⟨dbTwoCompanies, Date 2024 3 10, Date 2024 3 10⟩) 0).invocations.map
        Invocation.company = [exCompanyB, exCompany] ∧
      (fetchAllCompanies ⟨7, 5, 0⟩ svcThreePages (.ok [exCompanyB, exCompany])
        (fun _ _ => ⟨dbTwoCompanies, Date 2024 3 10, Date 2024 3 10⟩) 0).invocations.map
        Invocation.success = [false, true] ∧
      (fetchAllCompanies ⟨7, 5, 0⟩ svcThreePages (.ok [exCompanyB, exCompany])
        (fun _ _ => ⟨dbTwoCompanies, Date 2024 3 10, Date 2024 3 10⟩) 0).summary =
        some ⟨2, 1⟩ :=
  ⟨(fetchAllCompanies_sweep ⟨7, 5, 0⟩ svcThreePages [exCompanyB, exCompany]
      (fun _ _ => ⟨dbTwoCompanies, Date 2024 3 10, Date 2024 3 10⟩) 0).1,
   by decide, by decide⟩

/-! ## The skip heuristic on the computed window -/

/-- The row selected by `latestBy` has the greatest key of the list. -/
theorem latestBy_max (key : Document → Time) (docs : List Document) (m : Document)
    (h : latestBy key docs = some m) : ∀ d ∈ docs, key d ≤ key m := by
  induction docs generalizing m with
  | nil => simp [latestBy] at h
  | cons d rest ih =>
    intro x hx
    simp only [latestBy] at h
    cases hrest : latestBy key rest with
    | none =>
      rw [hrest] at h
      simp only [Option.some.injEq] at h
      subst h
      cases rest with
      | nil =>
        simp only [List.mem_singleton] at hx
        rw [hx]
      | cons y ys =>
        simp only [latestBy] at hrest
        cases hys : latestBy key ys with
        | none => simp [hys] at hrest
        | some z =>
          rw [hys] at hrest
          simp only at hrest
          split_ifs at hrest
    | some m2 =>
      rw [hrest] at h
      simp only at h
      have hmax := ih m2 hrest
      rcases List.mem_cons.mp hx with hx | hx
      · subst hx
        split_ifs at h with hle
        · simp only [Option.some.injEq] at h
          subst h
          exact le_refl _
        · simp only [Option.some.injEq] at h
          subst h
          exact le_of_lt (not_le.mp hle)
      · split_ifs at h with hle
        · simp only [Option.some.injEq] at h
          subst h
          exact le_trans (hmax x hx) hle
        · simp only [Option.some.injEq] at h
          subst h
          exact hmax x hx

/-- The row selected by `latestBy` is a row of the list. -/
theorem latestBy_mem (key : Document → Time) (docs : List Document) (m : Document)
    (h : latestBy key docs = some m) : m ∈ docs := by
  induction docs generalizing m with
  | nil => simp [latestBy] at h
  | cons d rest ih =>
    simp only [latestBy] at h
    cases hrest : latestBy key rest with
    | none =>
      rw [hrest] at h
      simp only [Option.some.injEq] at h
      subst h
      exact List.mem_cons_self _ _
    | some m2 =>
      rw [hrest] at h
      simp only at h
      split_ifs at h
      · simp only [Option.some.injEq] at h
        subst h
        exact List.mem_cons_self _ _
      · simp only [Option.some.injEq] at h
        subst h
        exact List.mem_cons_of_mem _ (ih m2 hrest)

/-- A positive count of documents issued between two bounds comes from a
document issued between them. -/
theorem exists_of_countIssued_pos (docs : List Document) (lo hi : Time)
    (h : 0 < countIssued docs lo hi) :
    ∃ d ∈ docs, lo ≤ d.IssueDate ∧ d.IssueDate ≤ hi := by
  unfold countIssued at h
  have hpos : 0 < (docs.filter fun d => decide (lo ≤ d.IssueDate ∧ d.IssueDate ≤ hi)).length := by
    exact_mod_cast h
  obtain ⟨d, hd⟩ := List.exists_mem_of_length_pos hpos
  rw [List.mem_filter] at hd
  exact ⟨d, hd.1, by simpa using hd.2⟩

/-- With a latest document issued no earlier than three days before `endDate`,
the computed window is at most four days long. -/
theorem window_le_four_days (cfg : SchedulerConfig) (db : DB) (companyID : Int)
    (endDate : Time) (latest : Document)
    (hlatest : db.selectLatestByIssueDate companyID = .ok latest)
    (hrecent : Time.AddDate endDate (-3) ≤ latest.IssueDate) :
    endDate - calculateOptimalStartDate cfg db companyID endDate ≤ 4 * Day := by
  unfold calculateOptimalStartDate
  simp only [hlatest, Time.AddDate, Time.Before, Time.After, Day_eq, decide_eq_true_eq] at *
  unfold Time at *
  split_ifs <;> omega

/-- The skip heuristic is off on the computed window when the latest-document
query and the recent-count query are answered from one set of documents. -/
theorem shouldSkipFetch_of_consistent (cfg : SchedulerConfig) (db : DB) (clock : Time)
    (companyID : Int) (endDate : Time) (docs : List Document) (latest : Document)
    (hlatest : db.selectLatestByIssueDate companyID = .ok latest)
    (hmax : ∀ d ∈ docs, d.IssueDate ≤ latest.IssueDate)
    (hcount : db.countIssuedBetween companyID (Time.AddDate endDate (-3)) endDate =
      .ok (countIssued docs (Time.AddDate endDate (-3)) endDate)) :
    shouldSkipFetch db clock companyID (calculateOptimalStartDate cfg db companyID endDate)
      endDate = false := by
  by_cases hpos : 0 < countIssued docs (Time.AddDate endDate (-3)) endDate
  · obtain ⟨d, hd, hlo, _⟩ := exists_of_countIssued_pos docs _ _ hpos
    have hrecent : Time.AddDate endDate (-3) ≤ latest.IssueDate := le_trans hlo (hmax d hd)
    have hwin := window_le_four_days cfg db companyID endDate latest hlatest hrecent
    apply shouldSkipFetch_of_daysDiff_lt
    rw [wholeDays_lt_iff _ 7 (by decide)]
    apply Sub_lt_of_lt _ _ _ (by decide)
    simp only [Day_eq] at *
    unfold Time at *
    omega
  · unfold shouldSkipFetch
    simp [hcount, hpos]

/-- Only an empty list has no latest row. -/
theorem latestBy_eq_none (key : Document → Time) (docs : List Document)
    (h : latestBy key docs = none) : docs = [] := by
  cases docs with
  | nil => rfl
  | cons d rest =>
    simp only [latestBy] at h
    cases hrest : latestBy key rest with
    | none => simp [hrest] at h
    | some m =>
      rw [hrest] at h
      simp only at h
      split_ifs at h

/-- C13: inside `fetchCompanyDocuments` the skip heuristic cannot fire.  When
the latest-document query is answered without error by a document with the
greatest issue date of a set of documents, and the recent-count query by the
count over that same set, `shouldSkipFetch` on the window from
`calculateOptimalStartDate` to `endDate` is false, for every `endDate`, clock
reading and `FetchDaysBack`: a positive recent count puts the latest issue date
at `endDate - 3 days` or later, so the window is at most 4 days, below the
threshold of 7.  The same holds over the database that holds exactly a given
list of documents, with or without documents of the company. -/
theorem shouldSkipFetch_never_on_computed_window :
    (∀ (cfg : SchedulerConfig) (db : DB) (clock : Time) (companyID : Int) (endDate : Time)
        (docs : List Document) (latest : Document),
      db.selectLatestByIssueDate companyID = .ok latest →
      latest ∈ docs →
      (∀ d ∈ docs, d.IssueDate ≤ latest.IssueDate) →
      db.countIssuedBetween companyID (Time.AddDate endDate (-3)) endDate =
        .ok (countIssued docs (Time.AddDate endDate (-3)) endDate) →
      shouldSkipFetch db clock companyID (calculateOptimalStartDate cfg db companyID endDate)
          endDate = false ∧
        (0 < countIssued docs (Time.AddDate endDate (-3)) endDate →
          endDate - 3 * Day ≤ latest.IssueDate ∧
          endDate - calculateOptimalStartDate cfg db companyID endDate ≤ 4 * Day)) ∧
    (∀ (cfg : SchedulerConfig) (credentials : List CompanyCredential) (docs : List Document)
        (clock : Time) (companyID : Int) (endDate : Time),
      shouldSkipFetch (dbOfDocuments credentials docs) clock companyID
        (calculateOptimalStartDate cfg (dbOfDocuments credentials docs) companyID endDate)
        endDate = false) := by
  constructor
  · intro cfg db clock companyID endDate docs latest hlatest _ hmax hcount
    refine ⟨shouldSkipFetch_of_consistent cfg db clock companyID endDate docs latest hlatest
      hmax hcount, ?_⟩
    intro hpos
    obtain ⟨d, hd, hlo, _⟩ := exists_of_countIssued_pos docs _ _ hpos
    have hrecent : Time.AddDate endDate (-3) ≤ latest.IssueDate := le_trans hlo (hmax d hd)
    refine ⟨?_, window_le_four_days cfg db companyID endDate latest hlatest hrecent⟩
    simp only [Time.AddDate] at hrecent
    unfold Time at *
    linarith
  · intro cfg credentials docs clock companyID endDate
    cases hrows : latestBy (fun d => d.IssueDate)
        (docs.filter fun d => d.CompanyID = companyID) with
    | none =>
      have hempty := latestBy_eq_none _ _ hrows
      have hcount : (dbOfDocuments credentials docs).countIssuedBetween companyID
          (Time.AddDate endDate (-3)) endDate = .ok 0 := by
        show Except.ok (countIssued (docs.filter fun d => d.CompanyID = companyID)
          (Time.AddDate endDate (-3)) endDate) = Except.ok 0
        rw [hempty]
        rfl
      unfold shouldSkipFetch
      simp [hcount]
    | some m =>
      exact shouldSkipFetch_of_consistent cfg (dbOfDocuments credentials docs) clock companyID
        endDate (docs.filter fun d => d.CompanyID = companyID) m
        (by simp [dbOfDocuments, hrows]) (latestBy_max _ _ m hrows) rfl

/-- C13 over a database holding a document issued the day before `endDate` and
created ten minutes before the clock reading, and an older one, with a
lookback of 60 days: the count of recent documents is 1, the window is two days
long, and the fetch is not skipped. -/
theorem shouldSkipFetch_never_on_computed_window_witness :
    shouldSkipFetch
        (dbOfDocuments [exCredential]
          [exDocument (Date 2024 1 5) (Date 2024 1 6),
           exDocument (Date 2024 3 9) (Date 2024 3 10 - 600 * Second)])
        (Date 2024 3 10) 1
        (calculateOptimalStartDate ⟨60, 5, 0⟩
          (dbOfDocuments [exCredential]
            [exDocument (Date 2024 1 5) (Date 2024 1 6),
             exDocument (Date 2024 3 9) (Date 2024 3 10 - 600 * Second)])
          1 (Date 2024 3 10))
        (Date 2024 3 10) = false ∧
      Date 2024 3 10 - 3 * Day ≤ Date 2024 3 9 ∧
      Date 2024 3 10 -
        calculateOptimalStartDate ⟨60, 5, 0⟩
          (dbOfDocuments [exCredential]
            [exDocument (Date 2024 1 5) (Date 2024 1 6),
             exDocument (Date 2024 3 9) (Date 2024 3 10 - 600 * Second)])
          1 (Date 2024 3 10) ≤ 4 * Day :=
  have h := shouldSkipFetch_never_on_computed_window.1 ⟨60, 5, 0⟩
    (dbOfDocuments [exCredential]
      [exDocument (Date 2024 1 5) (Date 2024 1 6),
       exDocument (Date 2024 3 9) (Date 2024 3 10 - 600 * Second)])
    (Date 2024 3 10) 1 (Date 2024 3 10)
    [exDocument (Date 2024 1 5) (Date 2024 1 6),
     exDocument (Date 2024 3 9) (Date 2024 3 10 - 600 * Second)]
    (exDocument (Date 2024 3 9) (Date 2024 3 10 - 600 * Second))
    rfl (by decide) (by decide) rfl
  ⟨h.1, h.2 (by decide)⟩
